import Mathlib

/-!
# Elys AMM: weights, swap engine, route estimator and exit engine

A shallow embedding of `x/amm/types/swap_out_amt_given_in.go`,
`x/amm/types/pool_exit_pool.go` and `x/amm/keeper/calc_swap_estimation_by_denom.go`.

Conventions of the embedding.

* `sdkmath.Int` is an arbitrary-precision integer and is embedded as `Int`.
  `sdkmath.LegacyDec` is an arbitrary-precision integer scaled by `10^18` and is
  embedded as the structure `LegacyDec` around that integer.  The bit-length ceilings
  of the SDK (256 and 316 bits) and the syntax check on denominations are outside the
  embedding: every quantity is taken to be in range and every denomination well formed.
* A Go function returning `(T, error)` is embedded as a function returning the value
  together with `Option Error`; the value that accompanies a non-nil error is kept,
  because several statements are about it.
* A Go panic (division by zero in `Quo`, a negative amount handed to `sdk.NewCoin`,
  a negative result of `Coins.Sub`) is the outcome `Outcome.panic`: the call does not
  return and the enclosing transaction is discarded.
* A method with a pointer receiver is embedded with the receiver threaded through:
  it returns the receiver as it stands after the call.
* Collaborators whose code is not part of these files (the invariant out-given-in
  calculator, the input parser, the external-liquidity-ratio lookup, the weight-fee
  curve, the share-to-coins calculator, the balance updater, the price and
  accounted-balance keepers) are fields of `Env`.
* The fixed gas charge at the head of `SwapOutAmtGivenIn` is gas accounting and is not
  embedded.
* The Go zero value of a decimal or of an integer (a nil big integer, as in `sdk.Coin{}`
  or in a named result that is never assigned) is embedded as zero.
* The collaborators of the keeper method `CalcSwapEstimationByDenom` (address parser,
  tier lookup, route builders, per-route spot-price calculators) are the fields of
  `KeeperEnv`.
-/

namespace Elys

/-! ## Outcomes and errors -/

/-- Errors returned by the embedded functions. `other` stands for any error produced
by a collaborator. -/
inductive Error where
  | expectedOneTokenIn
  | priceInNotSet (denom : String)
  | priceOutNotSet (denom : String)
  | priceNotSet (denom : String)
  | negativePoolAmount
  | ErrAmountTooLow
  | ErrTooMuchSwapFee
  | ErrInvalidDenom
  | spotPriceZero
  | other (code : Nat)
  deriving DecidableEq, Repr

/-- Result of running a Go call: it returns a value, or it panics. -/
inductive Outcome (α : Type) where
  | ret (a : α)
  | panic
  deriving DecidableEq, Repr

/-- Sequencing: a panic of the first call aborts the rest. -/
def Outcome.bind {α β : Type} (x : Outcome α) (f : α → Outcome β) : Outcome β :=
  match x with
  | .ret a => f a
  | .panic => .panic

/-! ## `sdkmath.LegacyDec` -/

/-- Fixed-point decimal with 18 fractional digits: the value is `i / 10^18`. -/
structure LegacyDec where
  i : Int
  deriving DecidableEq, Repr

/-- The scale `10^18` (`precisionReuse`). -/
def precisionReuse : Int := 1000000000000000000

/-- Half of the scale (`fivePrecision`). -/
def fivePrecision : Int := 500000000000000000

/-- Banker's rounding of a non-negative integer to a multiple of the scale, divided by
the scale: the body of `chopPrecisionAndRound` after the sign has been removed. -/
def chopPrecisionAndRoundAbs (d : Int) : Int :=
  let quo := d / precisionReuse
  let rem := d % precisionReuse
  if rem = 0 then quo
  else if rem < fivePrecision then quo
  else if fivePrecision < rem then quo + 1
  else if quo % 2 = 0 then quo
  else quo + 1

/-- The SDK's `chopPrecisionAndRound`: remove 18 digits with banker's rounding; a
negative argument is negated, rounded and negated back. -/
def chopPrecisionAndRound (d : Int) : Int :=
  if d < 0 then -(chopPrecisionAndRoundAbs (-d)) else chopPrecisionAndRoundAbs d

namespace LegacyDec

def LegacyZeroDec : LegacyDec := ⟨0⟩

def LegacyOneDec : LegacyDec := ⟨precisionReuse⟩

/-- The SDK's `LegacyNewDecFromInt` (and `Int.ToLegacyDec`). -/
def LegacyNewDecFromInt (n : Int) : LegacyDec := ⟨n * precisionReuse⟩

def Add (a b : LegacyDec) : LegacyDec := ⟨a.i + b.i⟩

def Sub (a b : LegacyDec) : LegacyDec := ⟨a.i - b.i⟩

/-- The SDK's `Mul`: the product of the two scaled integers, chopped with rounding. -/
def Mul (a b : LegacyDec) : LegacyDec := ⟨chopPrecisionAndRound (a.i * b.i)⟩

/-- The SDK's `Quo`: the dividend is multiplied by the scale twice, divided with
truncation toward zero, then chopped with rounding. A zero divisor panics. -/
def Quo (a b : LegacyDec) : Outcome LegacyDec :=
  if b.i = 0 then .panic
  else .ret ⟨chopPrecisionAndRound (Int.tdiv (a.i * (precisionReuse * precisionReuse)) b.i)⟩

/-- The value `Quo` returns when the divisor is not zero. -/
def QuoValue (a b : LegacyDec) : LegacyDec :=
  ⟨chopPrecisionAndRound (Int.tdiv (a.i * (precisionReuse * precisionReuse)) b.i)⟩

def IsZero (a : LegacyDec) : Bool := decide (a.i = 0)

def IsNegative (a : LegacyDec) : Bool := decide (a.i < 0)

def LT (a b : LegacyDec) : Bool := decide (a.i < b.i)

def GTE (a b : LegacyDec) : Bool := decide (b.i ≤ a.i)

def Abs (a : LegacyDec) : LegacyDec := ⟨|a.i|⟩

/-- The SDK's `TruncateInt`: division by the scale, truncating toward zero. -/
def TruncateInt (a : LegacyDec) : Int := Int.tdiv a.i precisionReuse

/-- The SDK's `RoundInt`: banker's rounding to an integer. -/
def RoundInt (a : LegacyDec) : Int := chopPrecisionAndRound a.i

end LegacyDec

open LegacyDec

/-! ## Coins -/

/-- The SDK's `sdk.Coin`. The zero value `sdk.Coin{}` is `Coin.empty`. -/
structure Coin where
  Denom : String
  Amount : Int
  deriving DecidableEq, Repr

def Coin.empty : Coin := ⟨"", 0⟩

/-- The SDK's `sdk.NewCoin`: panics on a negative amount. -/
def NewCoin (denom : String) (amount : Int) : Outcome Coin :=
  if amount < 0 then .panic else .ret ⟨denom, amount⟩

/-- The SDK's `sdk.Coins`: a list of coins, one per denomination. The SDK keeps the list
sorted by denomination; the embedding looks denominations up by scanning, so it does not
depend on the order. -/
abbrev Coins := List Coin

/-- The SDK's `Coins.AmountOf`: the amount recorded for a denomination, zero when it is
absent. -/
def Coins.AmountOf : Coins → String → Int
  | [], _ => 0
  | c :: cs, denom => if c.Denom = denom then c.Amount else Coins.AmountOf cs denom

/-- The SDK's `Coins.Sub`: subtraction per denomination; entries that become zero are
dropped and a negative entry panics. -/
def Coins.Sub (coins coinsB : Coins) : Outcome Coins :=
  let diff : Coins := ((coins.map Coin.Denom ++ coinsB.map Coin.Denom).dedup).map
    fun d => ⟨d, Coins.AmountOf coins d - Coins.AmountOf coinsB d⟩
  if diff.any (fun c => decide (c.Amount < 0)) then .panic
  else .ret (diff.filter fun c => decide (c.Amount ≠ 0))

/-! ## Pool data model -/

structure PoolAsset where
  Token : Coin
  Weight : Int
  deriving DecidableEq, Repr

structure PoolParams where
  UseOracle : Bool
  deriving DecidableEq, Repr

structure Pool where
  PoolId : Nat
  PoolParams : PoolParams
  TotalShares : Coin
  PoolAssets : List PoolAsset
  deriving DecidableEq, Repr

/-- Protocol parameters; the swap engine reads the minimum-slippage floor. -/
structure Params where
  MinSlippage : LegacyDec
  deriving DecidableEq, Repr

/-- The six values the share-to-coins calculator and `ExitPool` return beside the
error. -/
structure ExitValues where
  exitingCoins : Coins
  weightBalanceBonus : LegacyDec
  slippage : LegacyDec
  swapFee : LegacyDec
  takerFeesFinal : LegacyDec
  slippageCoins : Coins
  deriving DecidableEq, Repr

/-- The collaborators of the embedded functions. The calculators, the parser and the
lookups read the pool; only the balance updater returns a changed pool. -/
structure Env where
  /-- The keeper call `oracleKeeper.GetAssetPriceFromDenom`. -/
  GetAssetPriceFromDenom : String → LegacyDec
  /-- The keeper call `accountedPoolKeeper.GetAccountedBalance`, by pool id and denomination. -/
  GetAccountedBalance : Nat → String → Int
  /-- The method `Pool.CalcOutAmtGivenIn`: pool, snapshot, tokensIn, tokenOutDenom, swapFee. -/
  CalcOutAmtGivenIn : Pool → Pool → Coins → String → LegacyDec →
    Outcome (Coin × LegacyDec × Option Error)
  /-- The method `Pool.parsePoolAssets`: tokenIn, poolAssetIn, poolAssetOut. -/
  parsePoolAssets : Pool → Coins → String → Outcome (Coin × PoolAsset × PoolAsset × Option Error)
  /-- The method `Pool.GetAssetExternalLiquidityRatio`. -/
  GetAssetExternalLiquidityRatio : Pool → String → Outcome (LegacyDec × Option Error)
  /-- The method `Pool.CalculateWeightFees`: pool, accounted assets, assets after the swap,
  input denomination, params, perpetual factor; returns bonus, breaking fee, isSwapFee. -/
  CalculateWeightFees : Pool → List PoolAsset → List PoolAsset → String → Params → LegacyDec →
    Outcome (LegacyDec × LegacyDec × Bool)
  /-- The method `Pool.CalcExitPoolCoinsFromShares`: pool, exitingShares, tokenOutDenom, params,
  takerFees, applyWeightBreakingFee. -/
  CalcExitPoolCoinsFromShares : Pool → Int → String → Params → LegacyDec → Bool →
    Outcome (ExitValues × Option Error)
  /-- The method `Pool.UpdatePoolAssetBalances` (pointer receiver): the pool after the call and
  the error. -/
  UpdatePoolAssetBalances : Pool → Coins → Outcome (Pool × Option Error)

/-! ## `swap_out_amt_given_in.go` -/

/-- The loop of `NewPoolAssetsAfterSwap`: `poolAssets` is the list handed to the function
(returned as it is when a projected balance is negative), the second argument is what
remains to be visited and the third is `updatedAssets`. -/
def NewPoolAssetsAfterSwap.loop (inCoins outCoins : Coins) (poolAssets : List PoolAsset) :
    List PoolAsset → List PoolAsset → Outcome (List PoolAsset × Option Error)
  | [], updatedAssets => .ret (updatedAssets, none)
  | asset :: rest, updatedAssets =>
    let denom := asset.Token.Denom
    let beforeAmount := asset.Token.Amount
    let amountAfterSwap := beforeAmount + Coins.AmountOf inCoins denom - Coins.AmountOf outCoins denom
    if amountAfterSwap < 0 then .ret (poolAssets, some .negativePoolAmount)
    else (NewCoin denom amountAfterSwap).bind fun token =>
      NewPoolAssetsAfterSwap.loop inCoins outCoins poolAssets rest
        (updatedAssets ++ [⟨token, asset.Weight⟩])

/-- The method `Pool.NewPoolAssetsAfterSwap` (the receiver is not used). -/
def Pool.NewPoolAssetsAfterSwap (_p : Pool) (inCoins outCoins : Coins)
    (poolAssets : List PoolAsset) : Outcome (List PoolAsset × Option Error) :=
  NewPoolAssetsAfterSwap.loop inCoins outCoins poolAssets poolAssets []

/-- The method `Pool.GetAccountedBalance`. The loop variable is a copy of the list element,
so the assignment to its amount changes neither the argument list nor the pool. -/
def Pool.GetAccountedBalance (env : Env) (p : Pool) (poolAssets : List PoolAsset) :
    List PoolAsset :=
  poolAssets.map fun asset =>
    if p.PoolParams.UseOracle then
      let accountedPoolAmt := env.GetAccountedBalance p.PoolId asset.Token.Denom
      if 0 < accountedPoolAmt then { asset with Token := ⟨asset.Token.Denom, accountedPoolAmt⟩ }
      else asset
    else asset

/-- The method `Pool.CalcGivenInSlippage`. -/
def Pool.CalcGivenInSlippage (env : Env) (p snapshot : Pool) (tokensIn : Coins)
    (tokenOutDenom : String) : Outcome (LegacyDec × Option Error) :=
  (env.CalcOutAmtGivenIn p snapshot tokensIn tokenOutDenom LegacyZeroDec).bind fun r =>
  match r with
  | (_, _, some err) => .ret (LegacyZeroDec, some err)
  | (balancerOutCoin, _, none) =>
    (env.parsePoolAssets p tokensIn tokenOutDenom).bind fun q =>
    match q with
    | (_, _, _, some err) => .ret (LegacyZeroDec, some err)
    | (tokenIn, poolAssetIn, poolAssetOut, none) =>
      let inTokenPrice := env.GetAssetPriceFromDenom tokenIn.Denom
      if inTokenPrice.IsZero then
        .ret (LegacyZeroDec, some (.priceInNotSet poolAssetIn.Token.Denom))
      else
        let outTokenPrice := env.GetAssetPriceFromDenom tokenOutDenom
        if outTokenPrice.IsZero then
          .ret (LegacyZeroDec, some (.priceOutNotSet poolAssetOut.Token.Denom))
        else
          (((LegacyNewDecFromInt tokenIn.Amount).Mul inTokenPrice).Quo outTokenPrice).bind
            fun oracleOutAmount =>
          let balancerOut := LegacyNewDecFromInt balancerOutCoin.Amount
          let slippageAmount := oracleOutAmount.Sub balancerOut
          if slippageAmount.IsNegative then .ret (LegacyZeroDec, none)
          else .ret (slippageAmount, none)

/-- The values `SwapOutAmtGivenIn` returns, the error included. -/
structure SwapReturn where
  tokenOut : Coin
  slippage : LegacyDec
  slippageAmount : LegacyDec
  weightBalanceBonus : LegacyDec
  oracleOutAmount : LegacyDec
  swapFeeFinal : LegacyDec
  err : Option Error
  deriving DecidableEq, Repr

/-- The tuple every failing return of `SwapOutAmtGivenIn` writes out: `sdk.Coin{}`, five
zero decimals and the error. -/
def SwapReturn.failed (err : Error) : SwapReturn :=
  ⟨Coin.empty, LegacyZeroDec, LegacyZeroDec, LegacyZeroDec, LegacyZeroDec, LegacyZeroDec, some err⟩

/-- The local variables of the oracle-backed branch of `SwapOutAmtGivenIn` as they stand
when `NewPoolAssetsAfterSwap` has returned without error. -/
structure OracleSteps where
  tokenIn : Coin
  accountedAssets : List PoolAsset
  oracleOutAmount : LegacyDec
  externalLiquidityRatio : LegacyDec
  /-- The rounded quotient of the input amount by the ratio. -/
  resizedAmount : Int
  /-- What `CalcGivenInSlippage` returned for the resized input. -/
  modelSlippage : LegacyDec
  outAmountAfterSlippage : LegacyDec
  /-- The slippage amount scaled back by the ratio, before the floor. -/
  scaledSlippageAmount : LegacyDec
  /-- The quotient of the scaled slippage amount by the oracle amount, before the floor. -/
  computedSlippage : LegacyDec
  slippage : LegacyDec
  slippageAmount : LegacyDec
  newAssetPools : List PoolAsset
  deriving DecidableEq, Repr

/-- The oracle-backed branch of `SwapOutAmtGivenIn` from `parsePoolAssets` down to the
check of the error of `NewPoolAssetsAfterSwap`: either the error the function returns
there, or the local variables. -/
def Pool.SwapOutAmtGivenIn.oracleSteps (env : Env) (p snapshot : Pool) (tokensIn : Coins)
    (tokenOutDenom : String) (params : Params) : Outcome (Except Error OracleSteps) :=
  (env.parsePoolAssets p tokensIn tokenOutDenom).bind fun q =>
  match q with
  | (_, _, _, some err) => .ret (.error err)
  | (tokenIn, poolAssetIn, poolAssetOut, none) =>
    let inTokenPrice := env.GetAssetPriceFromDenom tokenIn.Denom
    if inTokenPrice.IsZero then .ret (.error (.priceInNotSet poolAssetIn.Token.Denom))
    else
      let outTokenPrice := env.GetAssetPriceFromDenom tokenOutDenom
      if outTokenPrice.IsZero then .ret (.error (.priceOutNotSet poolAssetOut.Token.Denom))
      else
        let accountedAssets := p.GetAccountedBalance env p.PoolAssets
        (((LegacyNewDecFromInt tokenIn.Amount).Mul inTokenPrice).Quo outTokenPrice).bind
          fun oracleOutAmount =>
        (env.GetAssetExternalLiquidityRatio p tokenOutDenom).bind fun er =>
        match er with
        | (_, some err) => .ret (.error err)
        | (externalLiquidityRatio, none) =>
          if externalLiquidityRatio.IsZero then .ret (.error .ErrAmountTooLow)
          else
            ((LegacyNewDecFromInt tokenIn.Amount).Quo externalLiquidityRatio).bind fun resized =>
            let resizedAmount := resized.RoundInt
            (NewCoin tokenIn.Denom resizedAmount).bind fun resizedCoin =>
            (p.CalcGivenInSlippage env snapshot [resizedCoin] tokenOutDenom).bind fun cs =>
            match cs with
            | (_, some err) => .ret (.error err)
            | (modelSlippage, none) =>
              let outAmountAfterSlippage :=
                oracleOutAmount.Sub (modelSlippage.Mul externalLiquidityRatio)
              let scaledSlippageAmount := modelSlippage.Mul externalLiquidityRatio
              (scaledSlippageAmount.Quo oracleOutAmount).bind fun computedSlippage =>
              let floored := computedSlippage.LT params.MinSlippage
              let slippage := if floored then params.MinSlippage else computedSlippage
              let slippageAmount :=
                if floored then oracleOutAmount.Mul params.MinSlippage else scaledSlippageAmount
              (NewCoin tokenOutDenom outAmountAfterSlippage.TruncateInt).bind fun outCoin =>
              (p.NewPoolAssetsAfterSwap tokensIn [outCoin] accountedAssets).bind fun na =>
              match na with
              | (_, some err) => .ret (.error err)
              | (newAssetPools, none) =>
                .ret (.ok
                  { tokenIn := tokenIn
                    accountedAssets := accountedAssets
                    oracleOutAmount := oracleOutAmount
                    externalLiquidityRatio := externalLiquidityRatio
                    resizedAmount := resizedAmount
                    modelSlippage := modelSlippage
                    outAmountAfterSlippage := outAmountAfterSlippage
                    scaledSlippageAmount := scaledSlippageAmount
                    computedSlippage := computedSlippage
                    slippage := slippage
                    slippageAmount := slippageAmount
                    newAssetPools := newAssetPools })

/-- The swap fee after the weight-fee interface has spoken: zeroed unless `isSwapFee`. -/
def effectiveSwapFee (isSwapFee : Bool) (swapFee : LegacyDec) : LegacyDec :=
  if !isSwapFee then LegacyZeroDec else swapFee

/-- The method `Pool.SwapOutAmtGivenIn` (pointer receiver): the pool after the call and the
returned tuple. No statement of the method assigns through the receiver. -/
def Pool.SwapOutAmtGivenIn (env : Env) (p snapshot : Pool) (tokensIn : Coins)
    (tokenOutDenom : String) (swapFee : LegacyDec)
    (weightBreakingFeePerpetualFactor : LegacyDec) (params : Params) (takerFees : LegacyDec) :
    Outcome (Pool × SwapReturn) :=
  if !p.PoolParams.UseOracle then
    if tokensIn.length ≠ 1 then .ret (p, SwapReturn.failed .expectedOneTokenIn)
    else
      (env.CalcOutAmtGivenIn p snapshot tokensIn tokenOutDenom swapFee).bind fun r =>
      match r with
      | (_, _, some err) => .ret (p, SwapReturn.failed err)
      | (balancerOutCoin, slippage, none) =>
        .ret (p, ⟨balancerOutCoin, slippage, LegacyZeroDec, LegacyZeroDec, LegacyZeroDec,
          swapFee, none⟩)
  else
    (Pool.SwapOutAmtGivenIn.oracleSteps env p snapshot tokensIn tokenOutDenom params).bind
      fun st =>
    match st with
    | .error err => .ret (p, SwapReturn.failed err)
    | .ok s =>
      (env.CalculateWeightFees p s.accountedAssets s.newAssetPools s.tokenIn.Denom params
        weightBreakingFeePerpetualFactor).bind fun wf =>
      match wf with
      | (weightBalanceBonus, weightBreakingFee, isSwapFee) =>
        let swapFee := effectiveSwapFee isSwapFee swapFee
        if swapFee.GTE LegacyOneDec then .ret (p, SwapReturn.failed .ErrTooMuchSwapFee)
        else
          let tokenAmountOutInt :=
            ((s.outAmountAfterSlippage.Mul (LegacyOneDec.Sub weightBreakingFee)).Mul
              (LegacyOneDec.Sub (swapFee.Add takerFees))).TruncateInt
          (NewCoin tokenOutDenom tokenAmountOutInt).bind fun oracleOutCoin =>
          .ret (p, ⟨oracleOutCoin, s.slippage, s.slippageAmount, weightBalanceBonus,
            s.oracleOutAmount, swapFee, none⟩)

/-! ## Weights -/

/-- The struct `AssetWeight`. -/
structure AssetWeight where
  Asset : String
  Weight : LegacyDec
  deriving DecidableEq, Repr

/-- The second loop of `NormalizedWeights`: one quotient per asset, appended to
`poolWeights`. -/
def NormalizedWeights.loop (totalWeight : Int) :
    List PoolAsset → List AssetWeight → Outcome (List AssetWeight)
  | [], poolWeights => .ret poolWeights
  | asset :: rest, poolWeights =>
    ((LegacyNewDecFromInt asset.Weight).Quo (LegacyNewDecFromInt totalWeight)).bind fun w =>
    NormalizedWeights.loop totalWeight rest (poolWeights ++ [⟨asset.Token.Denom, w⟩])

/-- The function `NormalizedWeights`. -/
def NormalizedWeights (poolAssets : List PoolAsset) : Outcome (List AssetWeight) :=
  let totalWeight := poolAssets.foldl (fun t asset => t + asset.Weight) 0
  let totalWeight := if totalWeight = 0 then 1 else totalWeight
  NormalizedWeights.loop totalWeight poolAssets []

/-- The oracle value of an asset: its balance times the price of its denomination, the
`weight` of the first loop of `GetOraclePoolNormalizedWeights`. -/
def Env.assetValue (env : Env) (asset : PoolAsset) : LegacyDec :=
  (LegacyNewDecFromInt asset.Token.Amount).Mul (env.GetAssetPriceFromDenom asset.Token.Denom)

/-- The total oracle value of an asset list, as a scaled integer. -/
def Env.totalValue (env : Env) (poolAssets : List PoolAsset) : Int :=
  (poolAssets.map fun a => (env.assetValue a).i).sum

/-- The first loop of `GetOraclePoolNormalizedWeights`: the values collected so far, their
total, and the error of the first asset whose price is zero. -/
def GetOraclePoolNormalizedWeights.collect (env : Env) :
    List PoolAsset → List AssetWeight → LegacyDec → List AssetWeight × LegacyDec × Option Error
  | [], oraclePoolWeights, totalWeight => (oraclePoolWeights, totalWeight, none)
  | asset :: rest, oraclePoolWeights, totalWeight =>
    let tokenPrice := env.GetAssetPriceFromDenom asset.Token.Denom
    if tokenPrice.IsZero then
      (oraclePoolWeights, totalWeight, some (.priceNotSet asset.Token.Denom))
    else
      let amount := asset.Token.Amount
      let weight := (LegacyNewDecFromInt amount).Mul tokenPrice
      GetOraclePoolNormalizedWeights.collect env rest
        (oraclePoolWeights ++ [⟨asset.Token.Denom, weight⟩]) (totalWeight.Add weight)

/-- The second loop of `GetOraclePoolNormalizedWeights`: every value is replaced by its
quotient by the total. -/
def GetOraclePoolNormalizedWeights.normalize (totalWeight : LegacyDec) :
    List AssetWeight → Outcome (List AssetWeight)
  | [] => .ret []
  | asset :: rest =>
    (asset.Weight.Quo totalWeight).bind fun w =>
    (GetOraclePoolNormalizedWeights.normalize totalWeight rest).bind fun ws =>
    .ret (⟨asset.Asset, w⟩ :: ws)

/-- The function `GetOraclePoolNormalizedWeights` (the pool id is not used). -/
def GetOraclePoolNormalizedWeights (env : Env) (_poolId : Nat) (poolAssets : List PoolAsset) :
    Outcome (List AssetWeight × Option Error) :=
  match GetOraclePoolNormalizedWeights.collect env poolAssets [] LegacyZeroDec with
  | (oraclePoolWeights, _, some err) => .ret (oraclePoolWeights, some err)
  | (oraclePoolWeights, totalWeight, none) =>
    let totalWeight := if totalWeight.IsZero then LegacyOneDec else totalWeight
    (GetOraclePoolNormalizedWeights.normalize totalWeight oraclePoolWeights).bind fun ws =>
    .ret (ws, none)

/-- The loop of `WeightDistanceFromTarget`: the index walks `poolAssets`, `targetWeights`
and `oracleWeights` in step; an index beyond one of the two weight lists panics. -/
def WeightDistanceFromTarget.loop :
    List PoolAsset → List AssetWeight → List AssetWeight → LegacyDec → Outcome LegacyDec
  | [], _, _, distanceSum => .ret distanceSum
  | _ :: rest, t :: ts, o :: os, distanceSum =>
    let distance := (t.Weight.Sub o.Weight).Abs
    WeightDistanceFromTarget.loop rest ts os (distanceSum.Add distance)
  | _ :: _, _, _, _ => .panic

/-- The SDK's `LegacyNewDec`. -/
def LegacyDec.LegacyNewDec (n : Int) : LegacyDec := ⟨n * precisionReuse⟩

/-- The method `Pool.WeightDistanceFromTarget`. -/
def Pool.WeightDistanceFromTarget (env : Env) (p : Pool) (poolAssets : List PoolAsset) :
    Outcome LegacyDec :=
  (GetOraclePoolNormalizedWeights env p.PoolId poolAssets).bind fun r =>
  match r with
  | (_, some _) => .ret LegacyZeroDec
  | (oracleWeights, none) =>
    (NormalizedWeights poolAssets).bind fun targetWeights =>
    (WeightDistanceFromTarget.loop poolAssets targetWeights oracleWeights LegacyZeroDec).bind
      fun distanceSum =>
    if p.PoolAssets.length = 0 then .ret LegacyZeroDec
    else distanceSum.Quo (LegacyNewDec (p.PoolAssets.length : Int))

/-! ## `pool_exit_pool.go` -/

/-- The tuple every failing return of `ExitPool` writes out: two empty coin sets and four
zero decimals. -/
def ExitValues.zero : ExitValues :=
  ⟨[], LegacyZeroDec, LegacyZeroDec, LegacyZeroDec, LegacyZeroDec, []⟩

/-- Modelled from the spec: the accessor `Pool.GetTotalPoolLiquidity` is not part of the
embedded files. The pool liquidity is the balance set of the pool assets, one coin per
asset; as in every `sdk.Coins` value, a zero balance has no entry. -/
def Pool.GetTotalPoolLiquidity (p : Pool) : Coins :=
  (p.PoolAssets.map PoolAsset.Token).filter fun c => decide (c.Amount ≠ 0)

/-- Modelled from the spec: the accessor `Pool.GetTotalShares` is not part of the embedded
files. It reads the total-shares amount of the pool. -/
def Pool.GetTotalShares (p : Pool) : Coin := p.TotalShares

/-- The method `Pool.processExitPool` (pointer receiver): the pool after the call and the
error. -/
def Pool.processExitPool (env : Env) (p : Pool) (exitingCoins : Coins) (exitingShares : Int) :
    Outcome (Pool × Option Error) :=
  (Coins.Sub p.GetTotalPoolLiquidity exitingCoins).bind fun balances =>
  (env.UpdatePoolAssetBalances p balances).bind fun u =>
  match u with
  | (p1, some err) => .ret (p1, some err)
  | (p1, none) =>
    let totalShares := p1.GetTotalShares.Amount
    (NewCoin p1.TotalShares.Denom (totalShares - exitingShares)).bind fun shares =>
    .ret ({ p1 with TotalShares := shares }, none)

/-- The method `Pool.ExitPool` (pointer receiver): the pool after the call, the six returned
values and the error. -/
def Pool.ExitPool (env : Env) (p : Pool) (exitingShares : Int) (tokenOutDenom : String)
    (params : Params) (takerFees : LegacyDec) (applyWeightBreakingFee : Bool) :
    Outcome (Pool × ExitValues × Option Error) :=
  (env.CalcExitPoolCoinsFromShares p exitingShares tokenOutDenom params takerFees
    applyWeightBreakingFee).bind fun c =>
  match c with
  | (_, some err) => .ret (p, ExitValues.zero, some err)
  | (v, none) =>
    (p.processExitPool env v.exitingCoins exitingShares).bind fun q =>
    match q with
    | (p1, some err) => .ret (p1, ExitValues.zero, some err)
    | (p1, none) => .ret (p1, v, none)

/-! ## `calc_swap_estimation_by_denom.go` -/

/-- One hop of a forward route (`types.SwapAmountInRoute`). -/
structure SwapAmountInRoute where
  PoolId : Nat
  TokenOutDenom : String
  deriving DecidableEq, Repr

/-- One hop of a reverse route (`types.SwapAmountOutRoute`). -/
structure SwapAmountOutRoute where
  PoolId : Nat
  TokenInDenom : String
  deriving DecidableEq, Repr

/-- The membership tier of a trader; the estimator reads its discount. -/
structure MembershipTier where
  Discount : LegacyDec
  deriving DecidableEq, Repr

/-- What `CalcInRouteSpotPrice` and `CalcOutRouteSpotPrice` return beside the discounted fee,
which the estimator drops. -/
structure RouteSpotPrice where
  spotPrice : LegacyDec
  impactedPrice : LegacyDec
  outAmount : Coin
  swapFee : LegacyDec
  availableLiquidity : Coin
  slippage : LegacyDec
  weightBonus : LegacyDec
  err : Option Error
  deriving DecidableEq, Repr

/-- The collaborators of `CalcSwapEstimationByDenom`. An address is its list of bytes. -/
structure KeeperEnv where
  /-- The SDK's `sdk.AccAddressFromBech32`. -/
  AccAddressFromBech32 : String → List Nat × Option Error
  /-- The keeper call `tierKeeper.GetMembershipTier`; its first result is dropped. -/
  GetMembershipTier : List Nat → MembershipTier
  /-- The method `Keeper.CalcInRouteByDenom`: denomIn, denomOut, baseCurrency. -/
  CalcInRouteByDenom : String → String → String →
    Outcome (List SwapAmountInRoute × Option Error)
  /-- The method `Keeper.CalcOutRouteByDenom`: denomOut, denomIn, baseCurrency. -/
  CalcOutRouteByDenom : String → String → String →
    Outcome (List SwapAmountOutRoute × Option Error)
  /-- The method `Keeper.CalcInRouteSpotPrice`: amount, route, discount, overrideSwapFee. -/
  CalcInRouteSpotPrice : Coin → List SwapAmountInRoute → LegacyDec → LegacyDec →
    Outcome RouteSpotPrice
  /-- The method `Keeper.CalcOutRouteSpotPrice`: amount, route, discount, overrideSwapFee. -/
  CalcOutRouteSpotPrice : Coin → List SwapAmountOutRoute → LegacyDec → LegacyDec →
    Outcome RouteSpotPrice

/-- The named results of `CalcSwapEstimationByDenom`. -/
structure SwapEstimation where
  inRoute : List SwapAmountInRoute
  outRoute : List SwapAmountOutRoute
  outAmount : Coin
  spotPrice : LegacyDec
  swapFeeOut : LegacyDec
  discountOut : LegacyDec
  availableLiquidity : Coin
  slippage : LegacyDec
  weightBonus : LegacyDec
  priceImpact : LegacyDec
  err : Option Error
  deriving DecidableEq, Repr

/-- The named results after the statement `Initialize return variables`: `slippage` is not
assigned there and holds the zero value of its type; `discountOut` holds the discount of
the tier. -/
def SwapEstimation.initial (tier : MembershipTier) : SwapEstimation :=
  { inRoute := []
    outRoute := []
    outAmount := Coin.empty
    spotPrice := LegacyZeroDec
    swapFeeOut := LegacyZeroDec
    discountOut := tier.Discount
    availableLiquidity := Coin.empty
    slippage := LegacyZeroDec
    weightBonus := LegacyZeroDec
    priceImpact := LegacyZeroDec
    err := none }

/-- The tail of `CalcSwapEstimationByDenom` from the assignment of the results of the
per-route spot-price call on: `r` holds the named results before the assignment and `q`
what the call returned. -/
def CalcSwapEstimationByDenom.finish (r : SwapEstimation) (q : RouteSpotPrice)
    (decimals : Nat) : Outcome SwapEstimation :=
  let r : SwapEstimation :=
    { r with
      spotPrice := q.spotPrice
      outAmount := q.outAmount
      swapFeeOut := q.swapFee
      availableLiquidity := q.availableLiquidity
      slippage := q.slippage
      weightBonus := q.weightBonus
      err := q.err }
  let impactedPrice := q.impactedPrice
  match r.err with
  | some _ => .ret r
  | none =>
    if decimals ≠ 0 then
      if r.spotPrice.IsZero then .ret { r with err := some .spotPriceZero }
      else
        ((r.spotPrice.Sub impactedPrice).Quo r.spotPrice).bind fun priceImpact =>
        .ret { r with priceImpact := priceImpact }
    else .ret r

/-- The head of `CalcSwapEstimationByDenom`: the address is parsed, an address that does
not parse is replaced by the empty address, and the tier of the address is looked up. -/
def KeeperEnv.tierOf (k : KeeperEnv) (address : String) : MembershipTier :=
  let parsed := k.AccAddressFromBech32 address
  let addr := match parsed.2 with
    | some _ => []
    | none => parsed.1
  k.GetMembershipTier addr

/-- The method `Keeper.CalcSwapEstimationByDenom`. -/
def CalcSwapEstimationByDenom (k : KeeperEnv) (amount : Coin) (denomIn denomOut : String)
    (baseCurrency : String) (address : String) (overrideSwapFee : LegacyDec) (decimals : Nat) :
    Outcome SwapEstimation :=
  let tier := k.tierOf address
  let r := SwapEstimation.initial tier
  if amount.Denom = denomIn then
    (k.CalcInRouteByDenom denomIn denomOut baseCurrency).bind fun route =>
    let r := { r with inRoute := route.1, err := route.2 }
    match r.err with
    | some _ => .ret r
    | none =>
      (k.CalcInRouteSpotPrice amount r.inRoute tier.Discount overrideSwapFee).bind fun q =>
      CalcSwapEstimationByDenom.finish r q decimals
  else if amount.Denom = denomOut then
    (k.CalcOutRouteByDenom denomOut denomIn baseCurrency).bind fun route =>
    let r := { r with outRoute := route.1, err := route.2 }
    match r.err with
    | some _ => .ret r
    | none =>
      (k.CalcOutRouteSpotPrice amount r.outRoute tier.Discount overrideSwapFee).bind fun q =>
      CalcSwapEstimationByDenom.finish r q decimals
  else .ret { r with err := some .ErrInvalidDenom }

/-! ## Sample data -/

/-- A two-asset pool holding 1000 of each asset, with 1000 shares outstanding. -/
def samplePool (useOracle : Bool) : Pool :=
  { PoolId := 1
    PoolParams := ⟨useOracle⟩
    TotalShares := ⟨"amm/pool/1", 1000⟩
    PoolAssets := [⟨⟨"uatom", 1000⟩, 1⟩, ⟨⟨"uusdc", 1000⟩, 1⟩] }

/-- Collaborators for the sample pool: every price is `price`, the external-liquidity
ratio is `ratio`, the invariant calculator pays `balancerOut` with slippage zero, the
weight-fee curve answers `(0, weightBreakingFee, isSwapFee)`, nothing is accounted
outside the pool, the share-to-coins calculator pays one `uatom` per share and fails on
a non-positive share amount, and the balance updater stores the balances it is handed,
failing without a change when one of them is negative. -/
def sampleEnv (price ratio : LegacyDec) (balancerOut : Int) (weightBreakingFee : LegacyDec)
    (isSwapFee : Bool) : Env :=
  { GetAssetPriceFromDenom := fun _ => price
    GetAccountedBalance := fun _ _ => 0
    CalcOutAmtGivenIn := fun _ _ _ tokenOutDenom _ =>
      .ret (⟨tokenOutDenom, balancerOut⟩, LegacyZeroDec, none)
    parsePoolAssets := fun _ tokensIn tokenOutDenom =>
      match tokensIn with
      | [c] => .ret (c, ⟨⟨c.Denom, 1000⟩, 1⟩, ⟨⟨tokenOutDenom, 1000⟩, 1⟩, none)
      | _ => .ret (Coin.empty, ⟨Coin.empty, 0⟩, ⟨Coin.empty, 0⟩, some (.other 1))
    GetAssetExternalLiquidityRatio := fun _ _ => .ret (ratio, none)
    CalculateWeightFees := fun _ _ _ _ _ _ => .ret (LegacyZeroDec, weightBreakingFee, isSwapFee)
    CalcExitPoolCoinsFromShares := fun _ exitingShares _ _ takerFees _ =>
      if exitingShares ≤ 0 then
        .ret (⟨[], LegacyZeroDec, LegacyZeroDec, LegacyZeroDec, LegacyZeroDec, []⟩,
          some (.other 2))
      else
        .ret (⟨[⟨"uatom", exitingShares⟩], LegacyZeroDec, LegacyZeroDec, LegacyZeroDec,
          takerFees, []⟩, none)
    UpdatePoolAssetBalances := fun p balances =>
      if balances.any (fun c => decide (c.Amount < 0)) then .ret (p, some (.other 3))
      else
        .ret ({ p with PoolAssets := p.PoolAssets.map fun a =>
          ⟨⟨a.Token.Denom, Coins.AmountOf balances a.Token.Denom⟩, a.Weight⟩ }, none) }

/-- The sample collaborators with the price of `uatom` set to `priceIn` and every other
price set to `priceOut`; the ratio is one, the invariant calculator pays `balancerOut`,
and no weight-breaking fee is charged. -/
def pricedEnv (priceIn priceOut : LegacyDec) (balancerOut : Int) : Env :=
  { sampleEnv priceOut LegacyOneDec balancerOut LegacyZeroDec true with
    GetAssetPriceFromDenom := fun denom => if denom = "uatom" then priceIn else priceOut }

/-- Collaborators of the estimator: every address but the empty one parses, every trader is
in a tier with discount `discount`, the routes have one hop through pool 1, and the
per-route calculators quote `spotPrice` and `impactedPrice` and pay the amount they are
handed, in `uusdc`. -/
def sampleKeeper (discount spotPrice impactedPrice : LegacyDec) : KeeperEnv :=
  { AccAddressFromBech32 := fun address =>
      if address = "" then ([], some (.other 4)) else ([1], none)
    GetMembershipTier := fun _ => ⟨discount⟩
    CalcInRouteByDenom := fun _ denomOut _ => .ret ([⟨1, denomOut⟩], none)
    CalcOutRouteByDenom := fun _ denomIn _ => .ret ([⟨1, denomIn⟩], none)
    CalcInRouteSpotPrice := fun amount _ _ overrideSwapFee =>
      .ret ⟨spotPrice, impactedPrice, ⟨"uusdc", amount.Amount⟩, overrideSwapFee,
        ⟨"uusdc", 1000⟩, LegacyZeroDec, LegacyZeroDec, none⟩
    CalcOutRouteSpotPrice := fun amount _ _ overrideSwapFee =>
      .ret ⟨spotPrice, impactedPrice, ⟨"uatom", amount.Amount⟩, overrideSwapFee,
        ⟨"uatom", 1000⟩, LegacyZeroDec, LegacyZeroDec, none⟩ }

/-! ## Shared lemmas -/

theorem Outcome.bind_eq_ret {α β : Type} (x : Outcome α) (f : α → Outcome β) (b : β) :
    x.bind f = .ret b ↔ ∃ a, x = .ret a ∧ f a = .ret b := by
  cases x <;> simp [Outcome.bind]

theorem Outcome.bind_ret {α β : Type} (a : α) (f : α → Outcome β) :
    (Outcome.ret a).bind f = f a := rfl

theorem NewCoin_eq_ret (denom : String) (amount : Int) (c : Coin) :
    NewCoin denom amount = .ret c ↔ 0 ≤ amount ∧ c = ⟨denom, amount⟩ := by
  unfold NewCoin
  split
  · constructor
    · intro h; cases h
    · intro h; omega
  · constructor
    · intro h; cases h; exact ⟨by omega, rfl⟩
    · rintro ⟨_, rfl⟩; rfl

/-- The equations that tie the local variables `s` of the oracle-backed branch to the
inputs of the call, in the order of the source. -/
structure OracleStepsRun (env : Env) (p snapshot : Pool) (tokensIn : Coins)
    (tokenOutDenom : String) (params : Params) (s : OracleSteps) : Prop where
  parse : ∃ poolAssetIn poolAssetOut,
    env.parsePoolAssets p tokensIn tokenOutDenom = .ret (s.tokenIn, poolAssetIn, poolAssetOut, none)
  priceIn : (env.GetAssetPriceFromDenom s.tokenIn.Denom).IsZero = false
  priceOut : (env.GetAssetPriceFromDenom tokenOutDenom).IsZero = false
  accounted : s.accountedAssets = p.GetAccountedBalance env p.PoolAssets
  oracle : ((LegacyNewDecFromInt s.tokenIn.Amount).Mul
      (env.GetAssetPriceFromDenom s.tokenIn.Denom)).Quo (env.GetAssetPriceFromDenom tokenOutDenom)
    = .ret s.oracleOutAmount
  ratio : env.GetAssetExternalLiquidityRatio p tokenOutDenom = .ret (s.externalLiquidityRatio, none)
  ratioNonzero : s.externalLiquidityRatio.IsZero = false
  resized : ∃ q, (LegacyNewDecFromInt s.tokenIn.Amount).Quo s.externalLiquidityRatio = .ret q ∧
    s.resizedAmount = q.RoundInt
  resizedNonneg : 0 ≤ s.resizedAmount
  model : p.CalcGivenInSlippage env snapshot [⟨s.tokenIn.Denom, s.resizedAmount⟩] tokenOutDenom
    = .ret (s.modelSlippage, none)
  outAfter : s.outAmountAfterSlippage
    = s.oracleOutAmount.Sub (s.modelSlippage.Mul s.externalLiquidityRatio)
  scaled : s.scaledSlippageAmount = s.modelSlippage.Mul s.externalLiquidityRatio
  computed : s.scaledSlippageAmount.Quo s.oracleOutAmount = .ret s.computedSlippage
  slippage : s.slippage
    = if s.computedSlippage.LT params.MinSlippage then params.MinSlippage else s.computedSlippage
  slippageAmount : s.slippageAmount
    = if s.computedSlippage.LT params.MinSlippage then s.oracleOutAmount.Mul params.MinSlippage
      else s.scaledSlippageAmount
  outNonneg : 0 ≤ s.outAmountAfterSlippage.TruncateInt
  newAssets : p.NewPoolAssetsAfterSwap tokensIn
      [⟨tokenOutDenom, s.outAmountAfterSlippage.TruncateInt⟩] s.accountedAssets
    = .ret (s.newAssetPools, none)

theorem oracleSteps_ok {env : Env} {p snapshot : Pool} {tokensIn : Coins}
    {tokenOutDenom : String} {params : Params} {s : OracleSteps}
    (h : Pool.SwapOutAmtGivenIn.oracleSteps env p snapshot tokensIn tokenOutDenom params
      = .ret (.ok s)) :
    OracleStepsRun env p snapshot tokensIn tokenOutDenom params s := by
  unfold Pool.SwapOutAmtGivenIn.oracleSteps at h
  rw [Outcome.bind_eq_ret] at h
  obtain ⟨⟨tokenIn, ain, aout, e⟩, hparse, h⟩ := h
  cases e with
  | some err => simp at h
  | none =>
    simp only at h
    split at h
    · simp at h
    · split at h
      · simp at h
      · rename_i hin hout
        simp only [Outcome.bind_eq_ret] at h
        obtain ⟨oracleOutAmount, horacle, ⟨ratio, e⟩, hratio, h⟩ := h
        cases e with
        | some err => simp at h
        | none =>
          simp only at h
          split at h
          · simp at h
          · rename_i hr
            simp only [Outcome.bind_eq_ret, NewCoin_eq_ret] at h
            obtain ⟨resized, hresized, resizedCoin, ⟨hnn, rfl⟩, ⟨ms, e⟩, hcalc, h⟩ := h
            cases e with
            | some err => simp at h
            | none =>
              simp only [Outcome.bind_eq_ret, NewCoin_eq_ret] at h
              obtain ⟨computed, hcomputed, outCoin, ⟨hout0, rfl⟩, ⟨na, e⟩, hna, h⟩ := h
              cases e with
              | some err => simp at h
              | none =>
                simp only [Outcome.ret.injEq, Except.ok.injEq] at h
                subst h
                exact
                  { parse := ⟨ain, aout, hparse⟩
                    priceIn := by simpa using hin
                    priceOut := by simpa using hout
                    accounted := rfl
                    oracle := horacle
                    ratio := hratio
                    ratioNonzero := by simpa using hr
                    resized := ⟨resized, hresized, rfl⟩
                    resizedNonneg := hnn
                    model := hcalc
                    outAfter := rfl
                    scaled := rfl
                    computed := hcomputed
                    slippage := rfl
                    slippageAmount := rfl
                    outNonneg := hout0
                    newAssets := hna }

/-- Every return of the oracle-backed branch: the pool is the one that was passed in, and
the tuple is either the failing tuple or the settled one. -/
theorem SwapOutAmtGivenIn_oracle_ret {env : Env} {p snapshot : Pool} {tokensIn : Coins}
    {tokenOutDenom : String} {swapFee factor : LegacyDec} {params : Params}
    {takerFees : LegacyDec} {p1 : Pool} {r : SwapReturn}
    (hOracle : p.PoolParams.UseOracle = true)
    (hRun : p.SwapOutAmtGivenIn env snapshot tokensIn tokenOutDenom swapFee factor params
      takerFees = .ret (p1, r)) :
    p1 = p ∧
    ((∃ e, r = SwapReturn.failed e) ∨
      ∃ s bonus weightBreakingFee isSwapFee,
        Pool.SwapOutAmtGivenIn.oracleSteps env p snapshot tokensIn tokenOutDenom params
          = .ret (.ok s) ∧
        env.CalculateWeightFees p s.accountedAssets s.newAssetPools s.tokenIn.Denom params factor
          = .ret (bonus, weightBreakingFee, isSwapFee) ∧
        (effectiveSwapFee isSwapFee swapFee).GTE LegacyOneDec = false ∧
        0 ≤ ((s.outAmountAfterSlippage.Mul (LegacyOneDec.Sub weightBreakingFee)).Mul
          (LegacyOneDec.Sub ((effectiveSwapFee isSwapFee swapFee).Add takerFees))).TruncateInt ∧
        r = ⟨⟨tokenOutDenom,
              ((s.outAmountAfterSlippage.Mul (LegacyOneDec.Sub weightBreakingFee)).Mul
                (LegacyOneDec.Sub ((effectiveSwapFee isSwapFee swapFee).Add takerFees))).TruncateInt⟩,
            s.slippage, s.slippageAmount, bonus, s.oracleOutAmount,
            effectiveSwapFee isSwapFee swapFee, none⟩) := by
  unfold Pool.SwapOutAmtGivenIn at hRun
  simp only [hOracle, Bool.not_true, Bool.false_eq_true, if_false] at hRun
  rw [Outcome.bind_eq_ret] at hRun
  obtain ⟨st, hst, hRun⟩ := hRun
  cases st with
  | error err =>
    simp only [Outcome.ret.injEq, Prod.mk.injEq] at hRun
    exact ⟨hRun.1.symm, Or.inl ⟨err, hRun.2.symm⟩⟩
  | ok s =>
    simp only [Outcome.bind_eq_ret] at hRun
    obtain ⟨⟨bonus, wbf, isSwapFee⟩, hfees, hRun⟩ := hRun
    simp only at hRun
    split at hRun
    · simp only [Outcome.ret.injEq, Prod.mk.injEq] at hRun
      exact ⟨hRun.1.symm, Or.inl ⟨_, hRun.2.symm⟩⟩
    · rename_i hfee
      simp only [Outcome.bind_eq_ret, NewCoin_eq_ret] at hRun
      obtain ⟨c, ⟨hnn, rfl⟩, hRun⟩ := hRun
      simp only [Outcome.ret.injEq, Prod.mk.injEq] at hRun
      refine ⟨hRun.1.symm, Or.inr ⟨s, bonus, wbf, isSwapFee, hst, hfees, ?_, hnn, hRun.2.symm⟩⟩
      simpa using hfee

/-! ## The settled output of the oracle-backed swap -/

/-- C1. In every oracle-backed call of `SwapOutAmtGivenIn` that returns without error, the
returned coin carries `tokenOutDenom`, and its amount is `TruncateInt` (division of the
scaled integer by `10^18`, rounded toward zero) of
`outAmountAfterSlippage.Mul(1 - weightBreakingFee).Mul(1 - (swapFee + takerFees))`, where
`swapFee` is the effective swap fee, the two products are `LegacyDec.Mul`, and
`outAmountAfterSlippage` is the local variable of that name (the oracle amount minus the
scaled model slippage). With `outAmountAfterSlippage = 100`, `weightBreakingFee = 0.1` and
`swapFee + takerFees = 0.05` the amount is 85. -/
theorem SwapOutAmtGivenIn_settled_amount (env : Env) (p snapshot : Pool) (tokensIn : Coins)
    (tokenOutDenom : String) (swapFee factor : LegacyDec) (params : Params)
    (takerFees : LegacyDec) (p1 : Pool) (r : SwapReturn)
    (hOracle : p.PoolParams.UseOracle = true)
    (hRun : p.SwapOutAmtGivenIn env snapshot tokensIn tokenOutDenom swapFee factor params
      takerFees = .ret (p1, r))
    (hOk : r.err = none) :
    ∃ s bonus weightBreakingFee isSwapFee,
      Pool.SwapOutAmtGivenIn.oracleSteps env p snapshot tokensIn tokenOutDenom params
        = .ret (.ok s) ∧
      env.CalculateWeightFees p s.accountedAssets s.newAssetPools s.tokenIn.Denom params factor
        = .ret (bonus, weightBreakingFee, isSwapFee) ∧
      s.outAmountAfterSlippage
        = s.oracleOutAmount.Sub (s.modelSlippage.Mul s.externalLiquidityRatio) ∧
      r.tokenOut.Denom = tokenOutDenom ∧
      r.tokenOut.Amount
        = ((s.outAmountAfterSlippage.Mul (LegacyOneDec.Sub weightBreakingFee)).Mul
            (LegacyOneDec.Sub ((effectiveSwapFee isSwapFee swapFee).Add takerFees))).TruncateInt ∧
      (s.outAmountAfterSlippage = LegacyNewDecFromInt 100 →
        weightBreakingFee = ⟨100000000000000000⟩ →
        (effectiveSwapFee isSwapFee swapFee).Add takerFees = ⟨50000000000000000⟩ →
        r.tokenOut.Amount = 85) := by
  obtain ⟨_, hr⟩ := SwapOutAmtGivenIn_oracle_ret hOracle hRun
  rcases hr with ⟨e, rfl⟩ | ⟨s, bonus, wbf, isSwapFee, hst, hfees, _, _, rfl⟩
  · simp [SwapReturn.failed] at hOk
  · refine ⟨s, bonus, wbf, isSwapFee, hst, hfees, (oracleSteps_ok hst).outAfter, rfl, rfl, ?_⟩
    intro h1 h2 h3
    simp only [h1, h2, h3]
    decide

/-- C1, at a concrete call: input 100 `uatom` at price parity, no slippage, breaking fee
0.1, swap fee 0.03 and taker fee 0.02; the call pays 85 `uusdc`. -/
theorem SwapOutAmtGivenIn_settled_amount_witness :
    ∃ s bonus weightBreakingFee isSwapFee,
      Pool.SwapOutAmtGivenIn.oracleSteps
          (sampleEnv LegacyOneDec LegacyOneDec 100 ⟨100000000000000000⟩ true) (samplePool true)
          (samplePool true) [⟨"uatom", 100⟩] "uusdc" ⟨LegacyZeroDec⟩
        = .ret (.ok s) ∧
      (sampleEnv LegacyOneDec LegacyOneDec 100 ⟨100000000000000000⟩ true).CalculateWeightFees
          (samplePool true) s.accountedAssets s.newAssetPools s.tokenIn.Denom ⟨LegacyZeroDec⟩
          LegacyOneDec
        = .ret (bonus, weightBreakingFee, isSwapFee) ∧
      s.outAmountAfterSlippage
        = s.oracleOutAmount.Sub (s.modelSlippage.Mul s.externalLiquidityRatio) ∧
      (⟨⟨"uusdc", 85⟩, ⟨0⟩, ⟨0⟩, ⟨0⟩, ⟨100000000000000000000⟩, ⟨30000000000000000⟩, none⟩ :
        SwapReturn).tokenOut.Denom = "uusdc" ∧
      (⟨⟨"uusdc", 85⟩, ⟨0⟩, ⟨0⟩, ⟨0⟩, ⟨100000000000000000000⟩, ⟨30000000000000000⟩, none⟩ :
        SwapReturn).tokenOut.Amount
        = ((s.outAmountAfterSlippage.Mul (LegacyOneDec.Sub weightBreakingFee)).Mul
            (LegacyOneDec.Sub ((effectiveSwapFee isSwapFee ⟨30000000000000000⟩).Add
              ⟨20000000000000000⟩))).TruncateInt ∧
      (s.outAmountAfterSlippage = LegacyNewDecFromInt 100 →
        weightBreakingFee = ⟨100000000000000000⟩ →
        (effectiveSwapFee isSwapFee ⟨30000000000000000⟩).Add ⟨20000000000000000⟩
          = ⟨50000000000000000⟩ →
        (⟨⟨"uusdc", 85⟩, ⟨0⟩, ⟨0⟩, ⟨0⟩, ⟨100000000000000000000⟩, ⟨30000000000000000⟩, none⟩ :
          SwapReturn).tokenOut.Amount = 85) :=
  SwapOutAmtGivenIn_settled_amount
    (sampleEnv LegacyOneDec LegacyOneDec 100 ⟨100000000000000000⟩ true) (samplePool true)
    (samplePool true) [⟨"uatom", 100⟩] "uusdc" ⟨30000000000000000⟩ LegacyOneDec
    ⟨LegacyZeroDec⟩ ⟨20000000000000000⟩ (samplePool true)
    ⟨⟨"uusdc", 85⟩, ⟨0⟩, ⟨0⟩, ⟨0⟩, ⟨100000000000000000000⟩, ⟨30000000000000000⟩, none⟩
    (by decide) (by decide) (by decide)

/-! ## The minimum-slippage floor -/

/-- C2. The call below swaps 100 `uatom` at price parity with ratio 1; the invariant
calculator pays 99, so the computed slippage is 1 (ratio 0.01), under the floor
`MinSlippage = 0.02`. The call returns slippage 0.02 and slippage amount 2 with oracle
amount 100, yet it pays 99 (all fees are zero), not 100 - 2 = 98: the amount the fees are
applied to was taken before the floor and is not lowered by it. -/
theorem SwapOutAmtGivenIn_floor_not_in_output :
    (samplePool true).SwapOutAmtGivenIn (sampleEnv LegacyOneDec LegacyOneDec 99 ⟨0⟩ true)
        (samplePool true) [⟨"uatom", 100⟩] "uusdc" ⟨0⟩ LegacyOneDec ⟨⟨20000000000000000⟩⟩ ⟨0⟩
      = .ret (samplePool true,
          { tokenOut := ⟨"uusdc", 99⟩
            slippage := ⟨20000000000000000⟩
            slippageAmount := LegacyNewDecFromInt 2
            weightBalanceBonus := ⟨0⟩
            oracleOutAmount := LegacyNewDecFromInt 100
            swapFeeFinal := ⟨0⟩
            err := none }) ∧
    (((LegacyNewDecFromInt 100).Sub (LegacyNewDecFromInt 2)).Mul
        (LegacyOneDec.Sub ⟨0⟩)).Mul (LegacyOneDec.Sub ((⟨0⟩ : LegacyDec).Add ⟨0⟩))
      = LegacyNewDecFromInt 98 := by
  decide

/-- C3. In every oracle-backed call of `SwapOutAmtGivenIn` that returns without error: the
computed ratio is the scaled slippage amount divided by the oracle amount; when it is below
`params.MinSlippage` the returned ratio is `MinSlippage` and the returned slippage amount is
`oracleOutAmount.Mul(MinSlippage)`; otherwise both are returned as computed. The returned
ratio is never below `MinSlippage`. With oracle amount 100, floor 0.02 and computed ratio
0.01 the call returns ratio 0.02 and amount 2. -/
theorem SwapOutAmtGivenIn_min_slippage_floor (env : Env) (p snapshot : Pool)
    (tokensIn : Coins) (tokenOutDenom : String) (swapFee factor : LegacyDec) (params : Params)
    (takerFees : LegacyDec) (p1 : Pool) (r : SwapReturn)
    (hOracle : p.PoolParams.UseOracle = true)
    (hRun : p.SwapOutAmtGivenIn env snapshot tokensIn tokenOutDenom swapFee factor params
      takerFees = .ret (p1, r))
    (hOk : r.err = none) :
    ∃ s,
      Pool.SwapOutAmtGivenIn.oracleSteps env p snapshot tokensIn tokenOutDenom params
        = .ret (.ok s) ∧
      s.scaledSlippageAmount = s.modelSlippage.Mul s.externalLiquidityRatio ∧
      s.scaledSlippageAmount.Quo s.oracleOutAmount = .ret s.computedSlippage ∧
      r.oracleOutAmount = s.oracleOutAmount ∧
      (s.computedSlippage.i < params.MinSlippage.i →
        r.slippage = params.MinSlippage ∧
        r.slippageAmount = s.oracleOutAmount.Mul params.MinSlippage) ∧
      (params.MinSlippage.i ≤ s.computedSlippage.i →
        r.slippage = s.computedSlippage ∧ r.slippageAmount = s.scaledSlippageAmount) ∧
      params.MinSlippage.i ≤ r.slippage.i ∧
      (s.oracleOutAmount = LegacyNewDecFromInt 100 →
        params.MinSlippage = ⟨20000000000000000⟩ →
        s.computedSlippage = ⟨10000000000000000⟩ →
        r.slippage = ⟨20000000000000000⟩ ∧ r.slippageAmount = LegacyNewDecFromInt 2) := by
  obtain ⟨_, hr⟩ := SwapOutAmtGivenIn_oracle_ret hOracle hRun
  rcases hr with ⟨e, rfl⟩ | ⟨s, bonus, wbf, isSwapFee, hst, hfees, _, _, rfl⟩
  · simp [SwapReturn.failed] at hOk
  · have hs := oracleSteps_ok hst
    have hsl := hs.slippage
    have hsa := hs.slippageAmount
    refine ⟨s, hst, hs.scaled, hs.computed, rfl, ?_, ?_, ?_, ?_⟩
    · intro hlt
      have : s.computedSlippage.LT params.MinSlippage = true := by simpa [LegacyDec.LT] using hlt
      simp only [this, if_true] at hsl hsa
      exact ⟨hsl, hsa⟩
    · intro hge
      have : s.computedSlippage.LT params.MinSlippage = false := by
        simpa [LegacyDec.LT] using hge
      simp only [this, Bool.false_eq_true, if_false] at hsl hsa
      exact ⟨hsl, hsa⟩
    · show params.MinSlippage.i ≤ s.slippage.i
      rw [hsl]
      by_cases hlt : s.computedSlippage.i < params.MinSlippage.i
      · have : s.computedSlippage.LT params.MinSlippage = true := by
          simpa [LegacyDec.LT] using hlt
        simp [this]
      · have : s.computedSlippage.LT params.MinSlippage = false := by
          simpa [LegacyDec.LT] using hlt
        simp only [this, Bool.false_eq_true, if_false]
        omega
    · intro h1 h2 h3
      show s.slippage = _ ∧ s.slippageAmount = _
      have hlt : s.computedSlippage.LT params.MinSlippage = true := by rw [h2, h3]; decide
      rw [hsl, hsa, if_pos hlt, if_pos hlt, h1, h2]
      decide

/-- C3, at a concrete call: oracle amount 100, invariant output 99, floor 0.02. -/
theorem SwapOutAmtGivenIn_min_slippage_floor_witness :
    ∃ s,
      Pool.SwapOutAmtGivenIn.oracleSteps (sampleEnv LegacyOneDec LegacyOneDec 99 ⟨0⟩ true)
          (samplePool true) (samplePool true) [⟨"uatom", 100⟩] "uusdc"
          ⟨⟨20000000000000000⟩⟩
        = .ret (.ok s) ∧
      s.oracleOutAmount = LegacyNewDecFromInt 100 ∧
      s.computedSlippage = ⟨10000000000000000⟩ ∧
      s.slippage = ⟨20000000000000000⟩ ∧
      s.slippageAmount = LegacyNewDecFromInt 2 := by
  obtain ⟨s, hst, _, _, ho, _, _, _, hex⟩ :=
    SwapOutAmtGivenIn_min_slippage_floor (sampleEnv LegacyOneDec LegacyOneDec 99 ⟨0⟩ true)
      (samplePool true) (samplePool true) [⟨"uatom", 100⟩] "uusdc" ⟨0⟩ LegacyOneDec
      ⟨⟨20000000000000000⟩⟩ ⟨0⟩ (samplePool true)
      ⟨⟨"uusdc", 99⟩, ⟨20000000000000000⟩, LegacyNewDecFromInt 2, ⟨0⟩, LegacyNewDecFromInt 100,
        ⟨0⟩, none⟩
      (by decide) (by decide) (by decide)
  have hval : Pool.SwapOutAmtGivenIn.oracleSteps (sampleEnv LegacyOneDec LegacyOneDec 99 ⟨0⟩ true)
      (samplePool true) (samplePool true) [⟨"uatom", 100⟩] "uusdc" ⟨⟨20000000000000000⟩⟩
      = .ret (.ok
        { tokenIn := ⟨"uatom", 100⟩
          accountedAssets := [⟨⟨"uatom", 1000⟩, 1⟩, ⟨⟨"uusdc", 1000⟩, 1⟩]
          oracleOutAmount := LegacyNewDecFromInt 100
          externalLiquidityRatio := LegacyOneDec
          resizedAmount := 100
          modelSlippage := LegacyNewDecFromInt 1
          outAmountAfterSlippage := LegacyNewDecFromInt 99
          scaledSlippageAmount := LegacyNewDecFromInt 1
          computedSlippage := ⟨10000000000000000⟩
          slippage := ⟨20000000000000000⟩
          slippageAmount := LegacyNewDecFromInt 2
          newAssetPools := [⟨⟨"uatom", 1100⟩, 1⟩, ⟨⟨"uusdc", 901⟩, 1⟩] }) := rfl
  rw [hval] at hst
  simp only [Outcome.ret.injEq, Except.ok.injEq] at hst
  subst hst
  exact ⟨_, hval, rfl, rfl, (hex rfl rfl rfl).1, (hex rfl rfl rfl).2⟩

/-! ## The slippage model -/

theorem LegacyDec.IsZero_eq_false (a : LegacyDec) : a.IsZero = false ↔ a.i ≠ 0 := by
  simp [LegacyDec.IsZero]

theorem LegacyDec.Quo_of_ne_zero (a b : LegacyDec) (h : b.IsZero = false) :
    a.Quo b = .ret ⟨chopPrecisionAndRound
      (Int.tdiv (a.i * (precisionReuse * precisionReuse)) b.i)⟩ := by
  have hb : b.i ≠ 0 := (LegacyDec.IsZero_eq_false b).1 h
  simp [LegacyDec.Quo, hb]

/-- C4. First part: whenever `CalcGivenInSlippage` returns without error, the invariant
calculator (called with fee zero) and the parser returned without error, both prices are
nonzero, and the result is the larger of zero and `oracleAmount - invariantAmount`, where
`oracleAmount` is `inputAmount.Mul(priceIn).Quo(priceOut)` and `invariantAmount` is the
calculator's output as a decimal; so the result is never negative. Second part: when the
calculator and the parser return without error and a price is zero, the function returns
the price-not-set error with a zero amount. -/
theorem CalcGivenInSlippage_clamped (env : Env) (p snapshot : Pool) (tokensIn : Coins)
    (tokenOutDenom : String) :
    (∀ r, p.CalcGivenInSlippage env snapshot tokensIn tokenOutDenom = .ret (r, none) →
      ∃ balancerOutCoin balancerSlippage tokenIn poolAssetIn poolAssetOut oracleAmount,
        env.CalcOutAmtGivenIn p snapshot tokensIn tokenOutDenom LegacyZeroDec
          = .ret (balancerOutCoin, balancerSlippage, none) ∧
        env.parsePoolAssets p tokensIn tokenOutDenom
          = .ret (tokenIn, poolAssetIn, poolAssetOut, none) ∧
        (env.GetAssetPriceFromDenom tokenIn.Denom).i ≠ 0 ∧
        (env.GetAssetPriceFromDenom tokenOutDenom).i ≠ 0 ∧
        ((LegacyNewDecFromInt tokenIn.Amount).Mul (env.GetAssetPriceFromDenom tokenIn.Denom)).Quo
            (env.GetAssetPriceFromDenom tokenOutDenom) = .ret oracleAmount ∧
        r.i = max (oracleAmount.i - (LegacyNewDecFromInt balancerOutCoin.Amount).i) 0 ∧
        0 ≤ r.i) ∧
    (∀ balancerOutCoin balancerSlippage tokenIn poolAssetIn poolAssetOut,
      env.CalcOutAmtGivenIn p snapshot tokensIn tokenOutDenom LegacyZeroDec
        = .ret (balancerOutCoin, balancerSlippage, none) →
      env.parsePoolAssets p tokensIn tokenOutDenom
        = .ret (tokenIn, poolAssetIn, poolAssetOut, none) →
      ((env.GetAssetPriceFromDenom tokenIn.Denom).i = 0 →
        p.CalcGivenInSlippage env snapshot tokensIn tokenOutDenom
          = .ret (LegacyZeroDec, some (.priceInNotSet poolAssetIn.Token.Denom))) ∧
      ((env.GetAssetPriceFromDenom tokenIn.Denom).i ≠ 0 →
        (env.GetAssetPriceFromDenom tokenOutDenom).i = 0 →
        p.CalcGivenInSlippage env snapshot tokensIn tokenOutDenom
          = .ret (LegacyZeroDec, some (.priceOutNotSet poolAssetOut.Token.Denom)))) := by
  constructor
  · intro r h
    unfold Pool.CalcGivenInSlippage at h
    rw [Outcome.bind_eq_ret] at h
    obtain ⟨⟨coin, sl, e⟩, hcalc, h⟩ := h
    cases e with
    | some err => simp at h
    | none =>
      simp only [Outcome.bind_eq_ret] at h
      obtain ⟨⟨tokenIn, ain, aout, e⟩, hparse, h⟩ := h
      cases e with
      | some err => simp at h
      | none =>
        simp only at h
        split at h
        · simp at h
        · split at h
          · simp at h
          · rename_i hin hout
            simp only [Outcome.bind_eq_ret] at h
            obtain ⟨oracleAmount, horacle, h⟩ := h
            refine ⟨coin, sl, tokenIn, ain, aout, oracleAmount, hcalc, hparse, ?_, ?_, horacle, ?_⟩
            · simpa [LegacyDec.IsZero] using hin
            · simpa [LegacyDec.IsZero] using hout
            · split at h
              · rename_i hneg
                simp only [Outcome.ret.injEq, Prod.mk.injEq, and_true] at h
                subst h
                simp only [LegacyDec.IsNegative, LegacyDec.Sub, decide_eq_true_eq] at hneg
                simp only [LegacyZeroDec]
                omega
              · rename_i hneg
                simp only [Outcome.ret.injEq, Prod.mk.injEq, and_true] at h
                subst h
                simp only [LegacyDec.IsNegative, LegacyDec.Sub, decide_eq_true_eq] at hneg
                simp only [LegacyDec.Sub]
                omega
  · intro coin sl tokenIn ain aout hcalc hparse
    constructor
    · intro hin
      unfold Pool.CalcGivenInSlippage
      simp [hcalc, hparse, Outcome.bind, LegacyDec.IsZero, hin]
    · intro hin hout
      unfold Pool.CalcGivenInSlippage
      simp [hcalc, hparse, Outcome.bind, LegacyDec.IsZero, hin, hout]

/-- C4, at concrete calls: with oracle amount 100 and invariant output 120 the slippage
is zero, not -20; with invariant output 99 it is 1; with a zero price the call fails. -/
theorem CalcGivenInSlippage_clamped_witness :
    (samplePool true).CalcGivenInSlippage (sampleEnv LegacyOneDec LegacyOneDec 120 ⟨0⟩ true)
        (samplePool true) [⟨"uatom", 100⟩] "uusdc" = .ret (LegacyZeroDec, none) ∧
    (samplePool true).CalcGivenInSlippage (sampleEnv LegacyOneDec LegacyOneDec 99 ⟨0⟩ true)
        (samplePool true) [⟨"uatom", 100⟩] "uusdc" = .ret (LegacyNewDecFromInt 1, none) ∧
    (∃ balancerOutCoin oracleAmount,
      ((LegacyNewDecFromInt 100).Mul LegacyOneDec).Quo LegacyOneDec = .ret oracleAmount ∧
      balancerOutCoin = (⟨"uusdc", 120⟩ : Coin) ∧
      LegacyZeroDec.i = max (oracleAmount.i - (LegacyNewDecFromInt balancerOutCoin.Amount).i) 0) ∧
    (samplePool true).CalcGivenInSlippage (sampleEnv LegacyZeroDec LegacyOneDec 99 ⟨0⟩ true)
        (samplePool true) [⟨"uatom", 100⟩] "uusdc"
      = .ret (LegacyZeroDec, some (.priceInNotSet "uatom")) := by
  refine ⟨by decide, by decide, ?_, ?_⟩
  · obtain ⟨coin, sl, tokenIn, ain, aout, oracleAmount, hcalc, hparse, _, _, horacle, hmax, _⟩ :=
      (CalcGivenInSlippage_clamped (sampleEnv LegacyOneDec LegacyOneDec 120 ⟨0⟩ true)
        (samplePool true) (samplePool true) [⟨"uatom", 100⟩] "uusdc").1 LegacyZeroDec
        (by decide)
    simp only [sampleEnv, Outcome.ret.injEq, Prod.mk.injEq] at hcalc hparse
    obtain ⟨rfl, -⟩ := hcalc
    obtain ⟨rfl, -⟩ := hparse
    exact ⟨_, oracleAmount, horacle, rfl, hmax⟩
  · exact ((CalcGivenInSlippage_clamped (sampleEnv LegacyZeroDec LegacyOneDec 99 ⟨0⟩ true)
      (samplePool true) (samplePool true) [⟨"uatom", 100⟩] "uusdc").2
      ⟨"uusdc", 99⟩ LegacyZeroDec ⟨"uatom", 100⟩ ⟨⟨"uatom", 1000⟩, 1⟩ ⟨⟨"uusdc", 1000⟩, 1⟩
      (by decide) (by decide)).1 (by decide)

/-! ## Failing swaps -/

/-- C5. Whenever `SwapOutAmtGivenIn` returns an error, on the plain branch or on the
oracle-backed one, the coin it returns is `sdk.Coin{}`, the slippage ratio, slippage
amount, weight bonus, oracle amount and final swap fee are all zero, and the pool after
the call is the pool before it. -/
theorem SwapOutAmtGivenIn_error_zero_valued (env : Env) (p snapshot : Pool) (tokensIn : Coins)
    (tokenOutDenom : String) (swapFee factor : LegacyDec) (params : Params)
    (takerFees : LegacyDec) (p1 : Pool) (r : SwapReturn) (e : Error)
    (hRun : p.SwapOutAmtGivenIn env snapshot tokensIn tokenOutDenom swapFee factor params
      takerFees = .ret (p1, r))
    (hErr : r.err = some e) :
    r.tokenOut = Coin.empty ∧ r.slippage = LegacyZeroDec ∧ r.slippageAmount = LegacyZeroDec ∧
    r.weightBalanceBonus = LegacyZeroDec ∧ r.oracleOutAmount = LegacyZeroDec ∧
    r.swapFeeFinal = LegacyZeroDec ∧ p1 = p := by
  cases hOracle : p.PoolParams.UseOracle with
  | true =>
    obtain ⟨hp, hr⟩ := SwapOutAmtGivenIn_oracle_ret hOracle hRun
    rcases hr with ⟨e1, rfl⟩ | ⟨s, bonus, wbf, isSwapFee, _, _, _, _, rfl⟩
    · exact ⟨rfl, rfl, rfl, rfl, rfl, rfl, hp⟩
    · simp at hErr
  | false =>
    unfold Pool.SwapOutAmtGivenIn at hRun
    simp only [hOracle, Bool.not_false, if_true] at hRun
    split at hRun
    · simp only [Outcome.ret.injEq, Prod.mk.injEq] at hRun
      obtain ⟨rfl, rfl⟩ := hRun
      exact ⟨rfl, rfl, rfl, rfl, rfl, rfl, rfl⟩
    · rw [Outcome.bind_eq_ret] at hRun
      obtain ⟨⟨coin, sl, e1⟩, _, hRun⟩ := hRun
      cases e1 with
      | some err =>
        simp only [Outcome.ret.injEq, Prod.mk.injEq] at hRun
        obtain ⟨rfl, rfl⟩ := hRun
        exact ⟨rfl, rfl, rfl, rfl, rfl, rfl, rfl⟩
      | none =>
        simp only [Outcome.ret.injEq, Prod.mk.injEq] at hRun
        obtain ⟨rfl, rfl⟩ := hRun
        simp at hErr

/-- C5, at a concrete call: a swap fee of 1 on the oracle-backed sample pool is refused,
and the refusal carries the zero tuple and the unchanged pool. -/
theorem SwapOutAmtGivenIn_error_zero_valued_witness :
    (samplePool true).SwapOutAmtGivenIn (sampleEnv LegacyOneDec LegacyOneDec 99 ⟨0⟩ true)
        (samplePool true) [⟨"uatom", 100⟩] "uusdc" LegacyOneDec LegacyOneDec ⟨⟨0⟩⟩ ⟨0⟩
      = .ret (samplePool true, SwapReturn.failed .ErrTooMuchSwapFee) ∧
    ((SwapReturn.failed .ErrTooMuchSwapFee).tokenOut = Coin.empty ∧
      (SwapReturn.failed .ErrTooMuchSwapFee).slippage = LegacyZeroDec ∧
      (SwapReturn.failed .ErrTooMuchSwapFee).slippageAmount = LegacyZeroDec ∧
      (SwapReturn.failed .ErrTooMuchSwapFee).weightBalanceBonus = LegacyZeroDec ∧
      (SwapReturn.failed .ErrTooMuchSwapFee).oracleOutAmount = LegacyZeroDec ∧
      (SwapReturn.failed .ErrTooMuchSwapFee).swapFeeFinal = LegacyZeroDec ∧
      samplePool true = samplePool true) :=
  ⟨by decide,
    SwapOutAmtGivenIn_error_zero_valued (sampleEnv LegacyOneDec LegacyOneDec 99 ⟨0⟩ true)
      (samplePool true) (samplePool true) [⟨"uatom", 100⟩] "uusdc" LegacyOneDec LegacyOneDec
      ⟨⟨0⟩⟩ ⟨0⟩ (samplePool true) (SwapReturn.failed .ErrTooMuchSwapFee) .ErrTooMuchSwapFee
      (by decide) (by decide)⟩

/-- C6. On an oracle-backed pool, when the input parses, both prices are nonzero and the
external-liquidity ratio of the output denomination is zero, `SwapOutAmtGivenIn` returns
`ErrAmountTooLow` with the zero tuple (it returns, so no division by the ratio took place)
and the pool is the pool before the call. -/
theorem SwapOutAmtGivenIn_zero_ratio (env : Env) (p snapshot : Pool) (tokensIn : Coins)
    (tokenOutDenom : String) (swapFee factor : LegacyDec) (params : Params)
    (takerFees : LegacyDec) (tokenIn : Coin) (poolAssetIn poolAssetOut : PoolAsset)
    (ratio : LegacyDec)
    (hOracle : p.PoolParams.UseOracle = true)
    (hParse : env.parsePoolAssets p tokensIn tokenOutDenom
      = .ret (tokenIn, poolAssetIn, poolAssetOut, none))
    (hIn : (env.GetAssetPriceFromDenom tokenIn.Denom).i ≠ 0)
    (hOut : (env.GetAssetPriceFromDenom tokenOutDenom).i ≠ 0)
    (hRatio : env.GetAssetExternalLiquidityRatio p tokenOutDenom = .ret (ratio, none))
    (hZero : ratio.i = 0) :
    p.SwapOutAmtGivenIn env snapshot tokensIn tokenOutDenom swapFee factor params takerFees
      = .ret (p, SwapReturn.failed .ErrAmountTooLow) := by
  unfold Pool.SwapOutAmtGivenIn Pool.SwapOutAmtGivenIn.oracleSteps
  simp [hOracle, hParse, Outcome.bind, LegacyDec.IsZero, LegacyDec.Quo, hIn, hOut, hRatio,
    hZero]

/-- C6, at a concrete call: ratio zero on the oracle-backed sample pool. -/
theorem SwapOutAmtGivenIn_zero_ratio_witness :
    (samplePool true).SwapOutAmtGivenIn (sampleEnv LegacyOneDec LegacyZeroDec 99 ⟨0⟩ true)
        (samplePool true) [⟨"uatom", 100⟩] "uusdc" ⟨0⟩ LegacyOneDec ⟨⟨0⟩⟩ ⟨0⟩
      = .ret (samplePool true, SwapReturn.failed .ErrAmountTooLow) :=
  SwapOutAmtGivenIn_zero_ratio (sampleEnv LegacyOneDec LegacyZeroDec 99 ⟨0⟩ true)
    (samplePool true) (samplePool true) [⟨"uatom", 100⟩] "uusdc" ⟨0⟩ LegacyOneDec ⟨⟨0⟩⟩ ⟨0⟩
    ⟨"uatom", 100⟩ ⟨⟨"uatom", 1000⟩, 1⟩ ⟨⟨"uusdc", 1000⟩, 1⟩ LegacyZeroDec
    (by decide) (by decide) (by decide) (by decide) (by decide) (by decide)

/-- C7. On a pool that is not oracle-backed: `SwapOutAmtGivenIn` returns an error when
`tokensIn` does not hold exactly one coin; otherwise it calls the invariant calculator with
the supplied swap fee, and returns the calculator's error with the zero tuple when the
calculator fails, and when the calculator succeeds it returns the calculator's coin and
slippage, zero for the slippage amount, weight bonus and oracle amount, and the supplied
swap fee. The pool is the pool before the call. -/
theorem SwapOutAmtGivenIn_plain_pool (env : Env) (p snapshot : Pool) (tokensIn : Coins)
    (tokenOutDenom : String) (swapFee factor : LegacyDec) (params : Params)
    (takerFees : LegacyDec)
    (hPlain : p.PoolParams.UseOracle = false) :
    (tokensIn.length ≠ 1 →
      p.SwapOutAmtGivenIn env snapshot tokensIn tokenOutDenom swapFee factor params takerFees
        = .ret (p, SwapReturn.failed .expectedOneTokenIn)) ∧
    (tokensIn.length = 1 →
      (∀ coin slippage,
        env.CalcOutAmtGivenIn p snapshot tokensIn tokenOutDenom swapFee
          = .ret (coin, slippage, none) →
        p.SwapOutAmtGivenIn env snapshot tokensIn tokenOutDenom swapFee factor params takerFees
          = .ret (p, ⟨coin, slippage, LegacyZeroDec, LegacyZeroDec, LegacyZeroDec, swapFee,
              none⟩)) ∧
      (∀ coin slippage err,
        env.CalcOutAmtGivenIn p snapshot tokensIn tokenOutDenom swapFee
          = .ret (coin, slippage, some err) →
        p.SwapOutAmtGivenIn env snapshot tokensIn tokenOutDenom swapFee factor params takerFees
          = .ret (p, SwapReturn.failed err)) ∧
      (env.CalcOutAmtGivenIn p snapshot tokensIn tokenOutDenom swapFee = .panic →
        p.SwapOutAmtGivenIn env snapshot tokensIn tokenOutDenom swapFee factor params takerFees
          = .panic) ∧
      (∀ p1 r,
        p.SwapOutAmtGivenIn env snapshot tokensIn tokenOutDenom swapFee factor params takerFees
          = .ret (p1, r) →
        (r.err = none ↔ ∃ coin slippage,
          env.CalcOutAmtGivenIn p snapshot tokensIn tokenOutDenom swapFee
            = .ret (coin, slippage, none)))) := by
  constructor
  · intro hlen
    unfold Pool.SwapOutAmtGivenIn
    simp [hPlain, hlen]
  · intro hlen
    refine ⟨?_, ?_, ?_, ?_⟩
    · intro coin sl hcalc
      unfold Pool.SwapOutAmtGivenIn
      simp [hPlain, hlen, hcalc, Outcome.bind]
    · intro coin sl err hcalc
      unfold Pool.SwapOutAmtGivenIn
      simp [hPlain, hlen, hcalc, Outcome.bind]
    · intro hcalc
      unfold Pool.SwapOutAmtGivenIn
      simp [hPlain, hlen, hcalc, Outcome.bind]
    · intro p1 r hRun
      unfold Pool.SwapOutAmtGivenIn at hRun
      simp only [hPlain, Bool.not_false, if_true, hlen, ne_eq, not_true_eq_false,
        if_false] at hRun
      rw [Outcome.bind_eq_ret] at hRun
      obtain ⟨⟨coin, sl, e1⟩, hcalc, hRun⟩ := hRun
      cases e1 with
      | some err =>
        simp only [Outcome.ret.injEq, Prod.mk.injEq] at hRun
        obtain ⟨rfl, rfl⟩ := hRun
        simp [SwapReturn.failed, hcalc]
      | none =>
        simp only [Outcome.ret.injEq, Prod.mk.injEq] at hRun
        obtain ⟨rfl, rfl⟩ := hRun
        simp [hcalc]

/-- C7, at concrete calls on the plain sample pool: two input coins are refused; one input
coin returns what the calculator returned, with the swap fee 0.03 passed through. -/
theorem SwapOutAmtGivenIn_plain_pool_witness :
    (samplePool false).SwapOutAmtGivenIn (sampleEnv LegacyOneDec LegacyOneDec 99 ⟨0⟩ true)
        (samplePool false) [⟨"uatom", 100⟩, ⟨"uusdc", 5⟩] "uusdc" ⟨30000000000000000⟩
        LegacyOneDec ⟨⟨0⟩⟩ ⟨0⟩
      = .ret (samplePool false, SwapReturn.failed .expectedOneTokenIn) ∧
    (samplePool false).SwapOutAmtGivenIn (sampleEnv LegacyOneDec LegacyOneDec 99 ⟨0⟩ true)
        (samplePool false) [⟨"uatom", 100⟩] "uusdc" ⟨30000000000000000⟩ LegacyOneDec ⟨⟨0⟩⟩ ⟨0⟩
      = .ret (samplePool false, ⟨⟨"uusdc", 99⟩, LegacyZeroDec, LegacyZeroDec, LegacyZeroDec,
          LegacyZeroDec, ⟨30000000000000000⟩, none⟩) :=
  ⟨(SwapOutAmtGivenIn_plain_pool (sampleEnv LegacyOneDec LegacyOneDec 99 ⟨0⟩ true)
      (samplePool false) (samplePool false) [⟨"uatom", 100⟩, ⟨"uusdc", 5⟩] "uusdc"
      ⟨30000000000000000⟩ LegacyOneDec ⟨⟨0⟩⟩ ⟨0⟩ (by decide)).1 (by decide),
    ((SwapOutAmtGivenIn_plain_pool (sampleEnv LegacyOneDec LegacyOneDec 99 ⟨0⟩ true)
      (samplePool false) (samplePool false) [⟨"uatom", 100⟩] "uusdc"
      ⟨30000000000000000⟩ LegacyOneDec ⟨⟨0⟩⟩ ⟨0⟩ (by decide)).2 (by decide)).1
      ⟨"uusdc", 99⟩ LegacyZeroDec (by decide)⟩

/-! ## The fee step -/

/-- C8. In an oracle-backed call of `SwapOutAmtGivenIn` that has passed every check up to
`NewPoolAssetsAfterSwap` and in which the weight-fee interface has answered: the effective
swap fee is the supplied `swapFee` when the interface reports `isSwapFee` and zero
otherwise; the call returns `ErrTooMuchSwapFee` exactly when the effective fee is at least
one; and when the call returns without error the returned final swap fee is the effective
fee. -/
theorem SwapOutAmtGivenIn_fee_step (env : Env) (p snapshot : Pool) (tokensIn : Coins)
    (tokenOutDenom : String) (swapFee factor : LegacyDec) (params : Params)
    (takerFees : LegacyDec) (s : OracleSteps) (bonus weightBreakingFee : LegacyDec)
    (isSwapFee : Bool)
    (hOracle : p.PoolParams.UseOracle = true)
    (hSteps : Pool.SwapOutAmtGivenIn.oracleSteps env p snapshot tokensIn tokenOutDenom params
      = .ret (.ok s))
    (hFees : env.CalculateWeightFees p s.accountedAssets s.newAssetPools s.tokenIn.Denom params
      factor = .ret (bonus, weightBreakingFee, isSwapFee)) :
    effectiveSwapFee isSwapFee swapFee = (if isSwapFee then swapFee else LegacyZeroDec) ∧
    (p.SwapOutAmtGivenIn env snapshot tokensIn tokenOutDenom swapFee factor params takerFees
        = .ret (p, SwapReturn.failed .ErrTooMuchSwapFee)
      ↔ LegacyOneDec.i ≤ (effectiveSwapFee isSwapFee swapFee).i) ∧
    (∀ p1 r,
      p.SwapOutAmtGivenIn env snapshot tokensIn tokenOutDenom swapFee factor params takerFees
        = .ret (p1, r) →
      ((∃ e, r.err = some e) ↔ LegacyOneDec.i ≤ (effectiveSwapFee isSwapFee swapFee).i) ∧
      (r.err = none → r.swapFeeFinal = effectiveSwapFee isSwapFee swapFee)) := by
  have hrun : p.SwapOutAmtGivenIn env snapshot tokensIn tokenOutDenom swapFee factor params
      takerFees
      = if (effectiveSwapFee isSwapFee swapFee).GTE LegacyOneDec then
          .ret (p, SwapReturn.failed .ErrTooMuchSwapFee)
        else
          (NewCoin tokenOutDenom
            ((s.outAmountAfterSlippage.Mul (LegacyOneDec.Sub weightBreakingFee)).Mul
              (LegacyOneDec.Sub ((effectiveSwapFee isSwapFee swapFee).Add
                takerFees))).TruncateInt).bind fun oracleOutCoin =>
          .ret (p, ⟨oracleOutCoin, s.slippage, s.slippageAmount, bonus, s.oracleOutAmount,
            effectiveSwapFee isSwapFee swapFee, none⟩) := by
    unfold Pool.SwapOutAmtGivenIn
    simp [hOracle, hSteps, hFees, Outcome.bind]
  refine ⟨?_, ?_, ?_⟩
  · cases isSwapFee <;> rfl
  · rw [hrun]
    by_cases hge : LegacyOneDec.i ≤ (effectiveSwapFee isSwapFee swapFee).i
    · have : (effectiveSwapFee isSwapFee swapFee).GTE LegacyOneDec = true := by
        simpa [LegacyDec.GTE] using hge
      simp [this, hge]
    · have : (effectiveSwapFee isSwapFee swapFee).GTE LegacyOneDec = false := by
        simpa [LegacyDec.GTE] using hge
      simp only [this, Bool.false_eq_true, if_false, hge, iff_false]
      intro h
      rw [Outcome.bind_eq_ret] at h
      obtain ⟨c, _, h⟩ := h
      simp [SwapReturn.failed] at h
  · intro p1 r h
    rw [hrun] at h
    by_cases hge : LegacyOneDec.i ≤ (effectiveSwapFee isSwapFee swapFee).i
    · have : (effectiveSwapFee isSwapFee swapFee).GTE LegacyOneDec = true := by
        simpa [LegacyDec.GTE] using hge
      simp only [this, if_true, Outcome.ret.injEq, Prod.mk.injEq] at h
      obtain ⟨rfl, rfl⟩ := h
      simp [SwapReturn.failed, hge]
    · have : (effectiveSwapFee isSwapFee swapFee).GTE LegacyOneDec = false := by
        simpa [LegacyDec.GTE] using hge
      simp only [this, Bool.false_eq_true, if_false] at h
      rw [Outcome.bind_eq_ret] at h
      obtain ⟨c, _, h⟩ := h
      simp only [Outcome.ret.injEq, Prod.mk.injEq] at h
      obtain ⟨rfl, rfl⟩ := h
      simp [hge]

/-- C8, at concrete calls on the oracle-backed sample pool with supplied swap fee 1: when
the weight-fee interface keeps the base fee the call is refused with `ErrTooMuchSwapFee`;
when it waives the base fee the effective fee is zero and the call pays in full. -/
theorem SwapOutAmtGivenIn_fee_step_witness :
    ((samplePool true).SwapOutAmtGivenIn (sampleEnv LegacyOneDec LegacyOneDec 100 ⟨0⟩ true)
        (samplePool true) [⟨"uatom", 100⟩] "uusdc" LegacyOneDec LegacyOneDec ⟨⟨0⟩⟩ ⟨0⟩
      = .ret (samplePool true, SwapReturn.failed .ErrTooMuchSwapFee)) ∧
    ((⟨⟨"uusdc", 100⟩, ⟨0⟩, ⟨0⟩, ⟨0⟩, LegacyNewDecFromInt 100, ⟨0⟩, none⟩ : SwapReturn).err = none →
      (⟨⟨"uusdc", 100⟩, ⟨0⟩, ⟨0⟩, ⟨0⟩, LegacyNewDecFromInt 100, ⟨0⟩, none⟩ :
        SwapReturn).swapFeeFinal = effectiveSwapFee false LegacyOneDec) :=
  ⟨(SwapOutAmtGivenIn_fee_step (sampleEnv LegacyOneDec LegacyOneDec 100 ⟨0⟩ true)
      (samplePool true) (samplePool true) [⟨"uatom", 100⟩] "uusdc" LegacyOneDec LegacyOneDec
      ⟨⟨0⟩⟩ ⟨0⟩
      { tokenIn := ⟨"uatom", 100⟩
        accountedAssets := [⟨⟨"uatom", 1000⟩, 1⟩, ⟨⟨"uusdc", 1000⟩, 1⟩]
        oracleOutAmount := LegacyNewDecFromInt 100
        externalLiquidityRatio := LegacyOneDec
        resizedAmount := 100
        modelSlippage := LegacyZeroDec
        outAmountAfterSlippage := LegacyNewDecFromInt 100
        scaledSlippageAmount := LegacyZeroDec
        computedSlippage := LegacyZeroDec
        slippage := LegacyZeroDec
        slippageAmount := LegacyZeroDec
        newAssetPools := [⟨⟨"uatom", 1100⟩, 1⟩, ⟨⟨"uusdc", 900⟩, 1⟩] }
      LegacyZeroDec ⟨0⟩ true (by decide) rfl (by decide)).2.1.2 (by decide),
    ((SwapOutAmtGivenIn_fee_step (sampleEnv LegacyOneDec LegacyOneDec 100 ⟨0⟩ false)
      (samplePool true) (samplePool true) [⟨"uatom", 100⟩] "uusdc" LegacyOneDec LegacyOneDec
      ⟨⟨0⟩⟩ ⟨0⟩
      { tokenIn := ⟨"uatom", 100⟩
        accountedAssets := [⟨⟨"uatom", 1000⟩, 1⟩, ⟨⟨"uusdc", 1000⟩, 1⟩]
        oracleOutAmount := LegacyNewDecFromInt 100
        externalLiquidityRatio := LegacyOneDec
        resizedAmount := 100
        modelSlippage := LegacyZeroDec
        outAmountAfterSlippage := LegacyNewDecFromInt 100
        scaledSlippageAmount := LegacyZeroDec
        computedSlippage := LegacyZeroDec
        slippage := LegacyZeroDec
        slippageAmount := LegacyZeroDec
        newAssetPools := [⟨⟨"uatom", 1100⟩, 1⟩, ⟨⟨"uusdc", 900⟩, 1⟩] }
      LegacyZeroDec ⟨0⟩ false (by decide) rfl (by decide)).2.2 (samplePool true)
      ⟨⟨"uusdc", 100⟩, ⟨0⟩, ⟨0⟩, ⟨0⟩, LegacyNewDecFromInt 100, ⟨0⟩, none⟩ (by decide)).2⟩

/-! ## Balance sets -/

theorem Coins.AmountOf_of_not_mem (cs : Coins) (d : String)
    (h : d ∉ cs.map Coin.Denom) : Coins.AmountOf cs d = 0 := by
  induction cs with
  | nil => rfl
  | cons c cs ih =>
    simp only [List.map_cons, List.mem_cons, not_or] at h
    have hne : ¬ c.Denom = d := fun heq => h.1 heq.symm
    simp only [Coins.AmountOf, hne, if_false]
    exact ih h.2

/-- The amount a balance set built from a table of amounts records for a denomination. -/
theorem Coins.AmountOf_table (ds : List String) (g : String → Int) (d : String) :
    Coins.AmountOf ((ds.map fun x => (⟨x, g x⟩ : Coin)).filter fun c => decide (c.Amount ≠ 0)) d
      = if d ∈ ds then g d else 0 := by
  induction ds with
  | nil => simp [Coins.AmountOf]
  | cons x xs ih =>
    simp only [List.map_cons, List.mem_cons]
    by_cases hz : g x = 0
    · have hf : ((⟨x, g x⟩ : Coin) :: xs.map fun x => (⟨x, g x⟩ : Coin)).filter
          (fun c => decide (c.Amount ≠ 0))
          = (xs.map fun x => (⟨x, g x⟩ : Coin)).filter fun c => decide (c.Amount ≠ 0) := by
        simp [List.filter_cons, hz]
      rw [hf, ih]
      by_cases hd : d = x
      · subst hd
        simp [hz]
      · simp [hd]
    · have hf : ((⟨x, g x⟩ : Coin) :: xs.map fun x => (⟨x, g x⟩ : Coin)).filter
          (fun c => decide (c.Amount ≠ 0))
          = ⟨x, g x⟩ :: (xs.map fun x => (⟨x, g x⟩ : Coin)).filter
              fun c => decide (c.Amount ≠ 0) := by
        simp [List.filter_cons, hz]
      rw [hf]
      simp only [Coins.AmountOf]
      by_cases hd : x = d
      · subst hd
        simp
      · have hd1 : ¬ d = x := fun h => hd h.symm
        simp only [hd, if_false, ih, hd1, false_or]

/-- What `Coins.Sub` returns records, for every denomination, the difference of the two
amounts, and none of its entries is negative. -/
theorem Coins.Sub_ret (coins coinsB balances : Coins)
    (h : Coins.Sub coins coinsB = .ret balances) (d : String) :
    Coins.AmountOf balances d = Coins.AmountOf coins d - Coins.AmountOf coinsB d ∧
    0 ≤ Coins.AmountOf balances d := by
  unfold Coins.Sub at h
  simp only at h
  split at h
  · cases h
  · rename_i hneg
    simp only [Outcome.ret.injEq] at h
    subst h
    have hval := Coins.AmountOf_table ((coins.map Coin.Denom ++ coinsB.map Coin.Denom).dedup)
      (fun x => Coins.AmountOf coins x - Coins.AmountOf coinsB x) d
    rw [hval]
    by_cases hd : d ∈ (coins.map Coin.Denom ++ coinsB.map Coin.Denom).dedup
    · simp only [hd, if_true, true_and]
      simp only [List.any_eq_true, List.mem_map, decide_eq_true_eq, not_exists, not_and] at hneg
      have := hneg ⟨d, Coins.AmountOf coins d - Coins.AmountOf coinsB d⟩ ⟨d, hd, rfl⟩
      simpa using this
    · simp only [hd, if_false]
      rw [List.mem_dedup, List.mem_append, not_or] at hd
      rw [Coins.AmountOf_of_not_mem coins d hd.1, Coins.AmountOf_of_not_mem coinsB d hd.2]
      simp

/-- In a pool whose assets have pairwise different denominations, the pool liquidity
records for each asset its balance. -/
theorem GetTotalPoolLiquidity_AmountOf (assets : List PoolAsset)
    (hNodup : (assets.map fun a => a.Token.Denom).Nodup) (a : PoolAsset) (ha : a ∈ assets) :
    Coins.AmountOf ((assets.map PoolAsset.Token).filter fun c => decide (c.Amount ≠ 0))
      a.Token.Denom = a.Token.Amount := by
  induction assets with
  | nil => cases ha
  | cons b t ih =>
    simp only [List.map_cons, List.nodup_cons, List.mem_map, not_exists, not_and] at hNodup
    obtain ⟨hb, ht⟩ := hNodup
    rcases List.mem_cons.1 ha with rfl | hat
    · by_cases hz : a.Token.Amount = 0
      · have hf : (a.Token :: t.map PoolAsset.Token).filter (fun c => decide (c.Amount ≠ 0))
            = (t.map PoolAsset.Token).filter fun c => decide (c.Amount ≠ 0) := by
          simp [List.filter_cons, hz]
        rw [List.map_cons, hf, hz]
        apply Coins.AmountOf_of_not_mem
        intro hmem
        simp only [List.mem_map, List.mem_filter] at hmem
        obtain ⟨c, ⟨⟨x, hx, rfl⟩, _⟩, hc⟩ := hmem
        exact hb x hx hc
      · have hf : (a.Token :: t.map PoolAsset.Token).filter (fun c => decide (c.Amount ≠ 0))
            = a.Token :: (t.map PoolAsset.Token).filter fun c => decide (c.Amount ≠ 0) := by
          simp [List.filter_cons, hz]
        rw [List.map_cons, hf]
        simp [Coins.AmountOf]
    · have hne : ¬ b.Token.Denom = a.Token.Denom := fun h => hb a hat h.symm
      by_cases hz : b.Token.Amount = 0
      · have hf : (b.Token :: t.map PoolAsset.Token).filter (fun c => decide (c.Amount ≠ 0))
            = (t.map PoolAsset.Token).filter fun c => decide (c.Amount ≠ 0) := by
          simp [List.filter_cons, hz]
        rw [List.map_cons, hf]
        exact ih ht hat
      · have hf : (b.Token :: t.map PoolAsset.Token).filter (fun c => decide (c.Amount ≠ 0))
            = b.Token :: (t.map PoolAsset.Token).filter fun c => decide (c.Amount ≠ 0) := by
          simp [List.filter_cons, hz]
        rw [List.map_cons, hf]
        simp only [Coins.AmountOf, hne, if_false]
        exact ih ht hat

/-! ## The exit engine -/

/-- Every return of `ExitPool`: the calculator failed and nothing was touched, or the
calculator succeeded, the subtraction returned a balance set, the updater was called on it,
and then either the updater failed or the shares were reduced. -/
theorem ExitPool_ret {env : Env} {p : Pool} {exitingShares : Int} {tokenOutDenom : String}
    {params : Params} {takerFees : LegacyDec} {applyWeightBreakingFee : Bool} {p1 : Pool}
    {v : ExitValues} {err : Option Error}
    (hRun : p.ExitPool env exitingShares tokenOutDenom params takerFees applyWeightBreakingFee
      = .ret (p1, v, err)) :
    (∃ v0 e, env.CalcExitPoolCoinsFromShares p exitingShares tokenOutDenom params takerFees
        applyWeightBreakingFee = .ret (v0, some e) ∧
      p1 = p ∧ v = ExitValues.zero ∧ err = some e) ∨
    (∃ v0 balances q,
      env.CalcExitPoolCoinsFromShares p exitingShares tokenOutDenom params takerFees
        applyWeightBreakingFee = .ret (v0, none) ∧
      Coins.Sub p.GetTotalPoolLiquidity v0.exitingCoins = .ret balances ∧
      ((∃ e, env.UpdatePoolAssetBalances p balances = .ret (q, some e) ∧
          p1 = q ∧ v = ExitValues.zero ∧ err = some e) ∨
        (env.UpdatePoolAssetBalances p balances = .ret (q, none) ∧
          0 ≤ q.TotalShares.Amount - exitingShares ∧
          p1 = { q with TotalShares := ⟨q.TotalShares.Denom, q.TotalShares.Amount - exitingShares⟩ } ∧
          v = v0 ∧ err = none))) := by
  unfold Pool.ExitPool at hRun
  rw [Outcome.bind_eq_ret] at hRun
  obtain ⟨⟨v0, e0⟩, hcalc, hRun⟩ := hRun
  cases e0 with
  | some e =>
    simp only [Outcome.ret.injEq, Prod.mk.injEq] at hRun
    obtain ⟨rfl, rfl, rfl⟩ := hRun
    exact Or.inl ⟨v0, e, hcalc, rfl, rfl, rfl⟩
  | none =>
    simp only [Outcome.bind_eq_ret] at hRun
    obtain ⟨⟨q1, e1⟩, hproc, hRun⟩ := hRun
    unfold Pool.processExitPool at hproc
    simp only [Outcome.bind_eq_ret] at hproc
    obtain ⟨balances, hsub, ⟨q, e2⟩, hupd, hproc⟩ := hproc
    refine Or.inr ⟨v0, balances, q, hcalc, hsub, ?_⟩
    cases e2 with
    | some e =>
      simp only [Outcome.ret.injEq, Prod.mk.injEq] at hproc
      obtain ⟨rfl, rfl⟩ := hproc
      simp only [Outcome.ret.injEq, Prod.mk.injEq] at hRun
      obtain ⟨rfl, rfl, rfl⟩ := hRun
      exact Or.inl ⟨e, hupd, rfl, rfl, rfl⟩
    | none =>
      simp only [Outcome.bind_eq_ret, NewCoin_eq_ret] at hproc
      obtain ⟨c, ⟨hnn, rfl⟩, hproc⟩ := hproc
      simp only [Outcome.ret.injEq, Prod.mk.injEq] at hproc
      obtain ⟨rfl, rfl⟩ := hproc
      simp only [Outcome.ret.injEq, Prod.mk.injEq] at hRun
      obtain ⟨rfl, rfl, rfl⟩ := hRun
      exact Or.inr ⟨hupd, hnn, rfl, rfl, rfl⟩

/-- C9. Let the balance updater leave the total shares alone and store, for every pool
asset, the balance it is handed for the asset's denomination, and let the pool assets have
pairwise different denominations. Whenever `ExitPool` returns without error: the returned
values are the share-to-coins calculator's; the total shares keep their denomination and
their amount is the amount before minus `exitingShares`; the balance set handed to the
updater is the pool liquidity before the call minus `exitingCoins`, entry by entry; and
every pool asset keeps its denomination and weight and holds its balance before the call
minus its entry in `exitingCoins`. -/
theorem ExitPool_success (env : Env) (p : Pool) (exitingShares : Int) (tokenOutDenom : String)
    (params : Params) (takerFees : LegacyDec) (applyWeightBreakingFee : Bool) (p1 : Pool)
    (v : ExitValues)
    (hShares : ∀ q bs q1, env.UpdatePoolAssetBalances q bs = .ret (q1, none) →
      q1.TotalShares = q.TotalShares)
    (hStore : ∀ q bs q1, env.UpdatePoolAssetBalances q bs = .ret (q1, none) →
      q1.PoolAssets = q.PoolAssets.map fun a =>
        ⟨⟨a.Token.Denom, Coins.AmountOf bs a.Token.Denom⟩, a.Weight⟩)
    (hNodup : (p.PoolAssets.map fun a => a.Token.Denom).Nodup)
    (hRun : p.ExitPool env exitingShares tokenOutDenom params takerFees applyWeightBreakingFee
      = .ret (p1, v, none)) :
    env.CalcExitPoolCoinsFromShares p exitingShares tokenOutDenom params takerFees
      applyWeightBreakingFee = .ret (v, none) ∧
    p1.TotalShares = ⟨p.TotalShares.Denom, p.TotalShares.Amount - exitingShares⟩ ∧
    (∃ balances q,
      Coins.Sub p.GetTotalPoolLiquidity v.exitingCoins = .ret balances ∧
      (∀ d, Coins.AmountOf balances d
        = Coins.AmountOf p.GetTotalPoolLiquidity d - Coins.AmountOf v.exitingCoins d) ∧
      env.UpdatePoolAssetBalances p balances = .ret (q, none) ∧
      p1.PoolAssets = q.PoolAssets) ∧
    p1.PoolAssets = p.PoolAssets.map fun a =>
      ⟨⟨a.Token.Denom, a.Token.Amount - Coins.AmountOf v.exitingCoins a.Token.Denom⟩,
        a.Weight⟩ := by
  rcases ExitPool_ret hRun with ⟨v0, e, _, _, _, herr⟩ | ⟨v0, balances, q, hcalc, hsub, h⟩
  · cases herr
  · rcases h with ⟨e, _, _, _, herr⟩ | ⟨hupd, _, hp1, hv, _⟩
    · cases herr
    · subst hv
      have hts := hShares p balances q hupd
      have hpa := hStore p balances q hupd
      have hbal := fun d => (Coins.Sub_ret _ _ _ hsub d).1
      refine ⟨hcalc, ?_, ⟨balances, q, hsub, hbal, hupd, ?_⟩, ?_⟩
      · rw [hp1, hts]
      · rw [hp1]
      · rw [hp1]
        show q.PoolAssets = _
        rw [hpa]
        apply List.map_congr_left
        intro a ha
        rw [hbal, Pool.GetTotalPoolLiquidity, GetTotalPoolLiquidity_AmountOf _ hNodup a ha]

/-- C9, at a concrete call: 100 of the 1000 shares of the sample pool leave with 100
`uatom`; the shares go to 900 and the `uatom` balance to 900. -/
theorem ExitPool_success_witness :
    (samplePool true).ExitPool (sampleEnv LegacyOneDec LegacyOneDec 99 ⟨0⟩ true) 100 "uatom"
        ⟨⟨0⟩⟩ ⟨0⟩ false
      = .ret (⟨1, ⟨true⟩, ⟨"amm/pool/1", 900⟩, [⟨⟨"uatom", 900⟩, 1⟩, ⟨⟨"uusdc", 1000⟩, 1⟩]⟩,
          ⟨[⟨"uatom", 100⟩], ⟨0⟩, ⟨0⟩, ⟨0⟩, ⟨0⟩, []⟩, none) ∧
    (⟨1, ⟨true⟩, ⟨"amm/pool/1", 900⟩, [⟨⟨"uatom", 900⟩, 1⟩, ⟨⟨"uusdc", 1000⟩, 1⟩]⟩ :
      Pool).TotalShares
      = ⟨(samplePool true).TotalShares.Denom, (samplePool true).TotalShares.Amount - 100⟩ ∧
    (⟨1, ⟨true⟩, ⟨"amm/pool/1", 900⟩, [⟨⟨"uatom", 900⟩, 1⟩, ⟨⟨"uusdc", 1000⟩, 1⟩]⟩ :
      Pool).PoolAssets
      = (samplePool true).PoolAssets.map fun a =>
          ⟨⟨a.Token.Denom, a.Token.Amount - Coins.AmountOf [⟨"uatom", 100⟩] a.Token.Denom⟩,
            a.Weight⟩ := by
  have h := ExitPool_success (sampleEnv LegacyOneDec LegacyOneDec 99 ⟨0⟩ true) (samplePool true)
    100 "uatom" ⟨⟨0⟩⟩ ⟨0⟩ false
    ⟨1, ⟨true⟩, ⟨"amm/pool/1", 900⟩, [⟨⟨"uatom", 900⟩, 1⟩, ⟨⟨"uusdc", 1000⟩, 1⟩]⟩
    ⟨[⟨"uatom", 100⟩], ⟨0⟩, ⟨0⟩, ⟨0⟩, ⟨0⟩, []⟩
    (by
      intro q bs q1 h
      simp only [sampleEnv] at h
      split at h
      · simp at h
      · simp only [Outcome.ret.injEq, Prod.mk.injEq, and_true] at h
        subst h
        rfl)
    (by
      intro q bs q1 h
      simp only [sampleEnv] at h
      split at h
      · simp at h
      · simp only [Outcome.ret.injEq, Prod.mk.injEq, and_true] at h
        subst h
        rfl)
    (by decide) (by decide)
  exact ⟨by decide, h.2.1, h.2.2.2⟩

/-- C10. Let the balance updater leave the pool as it was whenever it fails. Then: when
the share-to-coins calculator fails, `ExitPool` returns its error with the zero tuple and
the pool before the call; whenever `ExitPool` returns an error, the tuple is the zero
tuple and the pool (total shares and asset balances) is the pool before the call; and
whenever it returns without error, both steps took effect: the updater succeeded on the
liquidity minus `exitingCoins` and the share amount was reduced by `exitingShares`. -/
theorem ExitPool_atomic (env : Env) (p : Pool) (exitingShares : Int) (tokenOutDenom : String)
    (params : Params) (takerFees : LegacyDec) (applyWeightBreakingFee : Bool)
    (hAtomic : ∀ q bs q1 e, env.UpdatePoolAssetBalances q bs = .ret (q1, some e) → q1 = q) :
    (∀ v0 e, env.CalcExitPoolCoinsFromShares p exitingShares tokenOutDenom params takerFees
        applyWeightBreakingFee = .ret (v0, some e) →
      p.ExitPool env exitingShares tokenOutDenom params takerFees applyWeightBreakingFee
        = .ret (p, ExitValues.zero, some e)) ∧
    (∀ p1 v err,
      p.ExitPool env exitingShares tokenOutDenom params takerFees applyWeightBreakingFee
        = .ret (p1, v, err) →
      (∀ e, err = some e →
        v = ExitValues.zero ∧ p1 = p ∧ p1.TotalShares = p.TotalShares ∧
        p1.PoolAssets = p.PoolAssets) ∧
      (err = none →
        ∃ balances q,
          Coins.Sub p.GetTotalPoolLiquidity v.exitingCoins = .ret balances ∧
          env.UpdatePoolAssetBalances p balances = .ret (q, none) ∧
          p1.PoolAssets = q.PoolAssets ∧
          p1.TotalShares = ⟨q.TotalShares.Denom, q.TotalShares.Amount - exitingShares⟩)) := by
  constructor
  · intro v0 e hcalc
    unfold Pool.ExitPool
    simp [hcalc, Outcome.bind]
  · intro p1 v err hRun
    rcases ExitPool_ret hRun with ⟨v0, e, _, hp, hv, herr⟩ | ⟨v0, balances, q, hcalc, hsub, h⟩
    · subst hp hv herr
      exact ⟨fun _ _ => ⟨rfl, rfl, rfl, rfl⟩, fun h => by cases h⟩
    · rcases h with ⟨e, hupd, hp1, hv, herr⟩ | ⟨hupd, _, hp1, hv, herr⟩
      · have hq := hAtomic p balances q e hupd
        subst hp1 hv herr hq
        exact ⟨fun _ _ => ⟨rfl, rfl, rfl, rfl⟩, fun h => by cases h⟩
      · subst hv herr
        refine ⟨fun e h => (by cases h), fun _ => ⟨balances, q, hsub, hupd, ?_, ?_⟩⟩
        · rw [hp1]
        · rw [hp1]

/-- C10, at a concrete call: an exit of zero shares is refused by the calculator of the
sample collaborators, and the refusal carries the zero tuple and the unchanged pool. -/
theorem ExitPool_atomic_witness :
    (samplePool true).ExitPool (sampleEnv LegacyOneDec LegacyOneDec 99 ⟨0⟩ true) 0 "uatom"
        ⟨⟨0⟩⟩ ⟨0⟩ false
      = .ret (samplePool true, ExitValues.zero, some (.other 2)) :=
  (ExitPool_atomic (sampleEnv LegacyOneDec LegacyOneDec 99 ⟨0⟩ true) (samplePool true) 0 "uatom"
    ⟨⟨0⟩⟩ ⟨0⟩ false
    (by
      intro q bs q1 e h
      simp only [sampleEnv] at h
      split at h
      · simp only [Outcome.ret.injEq, Prod.mk.injEq] at h
        exact h.1.symm
      · simp at h)).1
    ⟨[], LegacyZeroDec, LegacyZeroDec, LegacyZeroDec, LegacyZeroDec, []⟩ (.other 2) (by decide)

/-! ## Rounding -/

theorem chopPrecisionAndRoundAbs_bounds (d : Int) (h : 0 ≤ d) :
    0 ≤ chopPrecisionAndRoundAbs d ∧
    2 * (chopPrecisionAndRoundAbs d * precisionReuse) ≤ 2 * d + precisionReuse ∧
    2 * d ≤ 2 * (chopPrecisionAndRoundAbs d * precisionReuse) + precisionReuse := by
  unfold chopPrecisionAndRoundAbs precisionReuse fivePrecision
  simp only
  split_ifs <;> omega

/-- Rounding moves a scaled integer by at most half a unit. -/
theorem chopPrecisionAndRound_bounds (d : Int) :
    2 * (chopPrecisionAndRound d * precisionReuse) ≤ 2 * d + precisionReuse ∧
    2 * d ≤ 2 * (chopPrecisionAndRound d * precisionReuse) + precisionReuse := by
  unfold chopPrecisionAndRound
  split
  · have h := chopPrecisionAndRoundAbs_bounds (-d) (by omega)
    constructor
    · have := h.2.2; rw [Int.neg_mul]; omega
    · have := h.2.1; rw [Int.neg_mul]; omega
  · exact (chopPrecisionAndRoundAbs_bounds d (by omega)).2

theorem chopPrecisionAndRound_nonneg (d : Int) (h : 0 ≤ d) : 0 ≤ chopPrecisionAndRound d := by
  unfold chopPrecisionAndRound
  rw [if_neg (by omega)]
  exact (chopPrecisionAndRoundAbs_bounds d h).1

theorem chopPrecisionAndRound_nonpos (d : Int) (h : d ≤ 0) : chopPrecisionAndRound d ≤ 0 := by
  unfold chopPrecisionAndRound
  split
  · have := (chopPrecisionAndRoundAbs_bounds (-d) (by omega)).1
    omega
  · have : d = 0 := by omega
    subst this
    decide

/-- Rounding keeps a value at or under an integer it does not exceed. -/
theorem chopPrecisionAndRound_le (d m : Int) (h : d ≤ m * precisionReuse) :
    chopPrecisionAndRound d ≤ m := by
  have hb := (chopPrecisionAndRound_bounds d).1
  unfold precisionReuse at *
  omega

/-- Rounding keeps a value at or over an integer it is not under. -/
theorem chopPrecisionAndRound_ge (d m : Int) (h : m * precisionReuse ≤ d) :
    m ≤ chopPrecisionAndRound d := by
  have hb := (chopPrecisionAndRound_bounds d).2
  unfold precisionReuse at *
  omega

theorem LegacyDec.Quo_eq_ret (a b q : LegacyDec) :
    a.Quo b = .ret q ↔
      b.i ≠ 0 ∧
      q = ⟨chopPrecisionAndRound (Int.tdiv (a.i * (precisionReuse * precisionReuse)) b.i)⟩ := by
  unfold LegacyDec.Quo
  split
  · rename_i h
    simp [h]
  · rename_i h
    simp only [Outcome.ret.injEq, ne_eq, h, not_false_eq_true, true_and]
    exact eq_comm

/-- The quotient of a non-negative decimal by a positive one is within one unit of the last
digit of the exact quotient: `|q * b - a * 10^18| ≤ b` on the scaled integers. -/
theorem LegacyDec.Quo_error (a b q : LegacyDec) (ha : 0 ≤ a.i) (hb : 0 < b.i)
    (h : a.Quo b = .ret q) :
    0 ≤ q.i ∧ q.i * b.i ≤ a.i * precisionReuse + b.i ∧
    a.i * precisionReuse ≤ q.i * b.i + b.i := by
  obtain ⟨_, rfl⟩ := (LegacyDec.Quo_eq_ret a b q).1 h
  have hP : (0 : Int) < precisionReuse := by decide
  have hnum : 0 ≤ a.i * (precisionReuse * precisionReuse) :=
    Int.mul_nonneg ha (Int.mul_nonneg (Int.le_of_lt hP) (Int.le_of_lt hP))
  rw [Int.tdiv_eq_ediv hnum (Int.le_of_lt hb)]
  generalize hf : a.i * (precisionReuse * precisionReuse) / b.i = f
  have h1 : f * b.i ≤ a.i * (precisionReuse * precisionReuse) := by
    rw [← hf]; exact Int.ediv_mul_le _ (Int.ne_of_gt hb)
  have h2 : a.i * (precisionReuse * precisionReuse) < (f + 1) * b.i := by
    rw [← hf]; exact Int.lt_ediv_add_one_mul_self _ hb
  have hf0 : 0 ≤ f := by rw [← hf]; exact Int.ediv_nonneg hnum (Int.le_of_lt hb)
  obtain ⟨h3, h4⟩ := chopPrecisionAndRound_bounds f
  have hq0 := chopPrecisionAndRound_nonneg f hf0
  generalize chopPrecisionAndRound f = q at *
  refine ⟨hq0, ?_, ?_⟩
  · show q * b.i ≤ a.i * precisionReuse + b.i
    have h5 : precisionReuse * (2 * (q * b.i))
        ≤ precisionReuse * (2 * (a.i * precisionReuse) + b.i) := by
      nlinarith
    have h6 := le_of_mul_le_mul_left h5 hP
    omega
  · show a.i * precisionReuse ≤ q * b.i + b.i
    have hP2 : (2 : Int) ≤ precisionReuse := by decide
    have h5 : precisionReuse * (2 * (a.i * precisionReuse))
        ≤ precisionReuse * (2 * (q * b.i) + 2 * b.i) := by
      nlinarith
    have h6 := le_of_mul_le_mul_left h5 hP
    omega

theorem LegacyDec.Mul_nonneg (a b : LegacyDec) (ha : 0 ≤ a.i) (hb : 0 ≤ b.i) :
    0 ≤ (a.Mul b).i :=
  chopPrecisionAndRound_nonneg _ (Int.mul_nonneg ha hb)

/-- Multiplying a non-negative decimal by a factor of at most one does not raise it. -/
theorem LegacyDec.Mul_le_self (a f : LegacyDec) (ha : 0 ≤ a.i) (hf1 : f.i ≤ precisionReuse) :
    (a.Mul f).i ≤ a.i :=
  chopPrecisionAndRound_le _ _ (Int.mul_le_mul_of_nonneg_left hf1 ha)

/-- Multiplying a non-positive decimal by a factor between zero and one keeps it between
itself and zero. -/
theorem LegacyDec.Mul_nonpos (a f : LegacyDec) (ha : a.i ≤ 0) (hf0 : 0 ≤ f.i)
    (hf1 : f.i ≤ precisionReuse) : a.i ≤ (a.Mul f).i ∧ (a.Mul f).i ≤ 0 := by
  constructor
  · apply chopPrecisionAndRound_ge
    exact Int.mul_le_mul_of_nonpos_left ha hf1
  · apply chopPrecisionAndRound_nonpos
    exact Int.mul_nonpos_of_nonpos_of_nonneg ha hf0

theorem LegacyDec.TruncateInt_le (a : LegacyDec) (ha : 0 ≤ a.i) :
    0 ≤ a.TruncateInt ∧ a.TruncateInt * precisionReuse ≤ a.i := by
  unfold LegacyDec.TruncateInt
  rw [Int.tdiv_eq_ediv ha (by decide)]
  unfold precisionReuse
  omega

theorem LegacyDec.TruncateInt_small (a : LegacyDec) (h1 : -precisionReuse < a.i)
    (h2 : a.i ≤ 0) : a.TruncateInt = 0 := by
  unfold LegacyDec.TruncateInt
  have : a.i = -(-a.i) := by omega
  rw [this, Int.neg_tdiv, Int.tdiv_eq_ediv (by omega) (by decide)]
  unfold precisionReuse at *
  omega

theorem LegacyDec.TruncateInt_neg (a : LegacyDec) (h : a.i ≤ -precisionReuse) :
    a.TruncateInt < 0 := by
  unfold LegacyDec.TruncateInt
  have : a.i = -(-a.i) := by omega
  rw [this, Int.neg_tdiv, Int.tdiv_eq_ediv (by unfold precisionReuse at h; omega) (by decide)]
  unfold precisionReuse at *
  omega

/-! ## The route estimator -/

/-- C11 (amended). When the denomination of `amount` is neither `denomIn` nor `denomOut`,
`CalcSwapEstimationByDenom` returns `ErrInvalidDenom` with no routes, empty `outAmount`
and `availableLiquidity` coins, and zero for the spot price, fee, slippage, weight bonus
and price impact, for every address and tier; the discount it returns is the discount of
the trader's tier. -/
theorem CalcSwapEstimationByDenom_invalid_denom (k : KeeperEnv) (amount : Coin)
    (denomIn denomOut baseCurrency address : String) (overrideSwapFee : LegacyDec)
    (decimals : Nat)
    (hIn : amount.Denom ≠ denomIn) (hOut : amount.Denom ≠ denomOut) :
    CalcSwapEstimationByDenom k amount denomIn denomOut baseCurrency address overrideSwapFee
        decimals
      = .ret
        { inRoute := []
          outRoute := []
          outAmount := Coin.empty
          spotPrice := LegacyZeroDec
          swapFeeOut := LegacyZeroDec
          discountOut := (k.tierOf address).Discount
          availableLiquidity := Coin.empty
          slippage := LegacyZeroDec
          weightBonus := LegacyZeroDec
          priceImpact := LegacyZeroDec
          err := some .ErrInvalidDenom } := by
  unfold CalcSwapEstimationByDenom
  simp [hIn, hOut, SwapEstimation.initial]

/-- C11, as stated, fails: a trader in a tier with discount 0.1 who asks for an estimate in
`uosmo` on the pair `uatom`/`uusdc` gets `ErrInvalidDenom` with discount 0.1, not zero. -/
theorem CalcSwapEstimationByDenom_invalid_denom_discount :
    CalcSwapEstimationByDenom (sampleKeeper ⟨100000000000000000⟩ LegacyOneDec LegacyOneDec)
        ⟨"uosmo", 5⟩ "uatom" "uusdc" "uusdc" "elys1" ⟨0⟩ 6
      = .ret
        { inRoute := []
          outRoute := []
          outAmount := Coin.empty
          spotPrice := LegacyZeroDec
          swapFeeOut := LegacyZeroDec
          discountOut := ⟨100000000000000000⟩
          availableLiquidity := Coin.empty
          slippage := LegacyZeroDec
          weightBonus := LegacyZeroDec
          priceImpact := LegacyZeroDec
          err := some .ErrInvalidDenom } ∧
    (⟨100000000000000000⟩ : LegacyDec) ≠ LegacyZeroDec := by
  decide

/-- C11 (amended), at a concrete call. -/
theorem CalcSwapEstimationByDenom_invalid_denom_witness :
    CalcSwapEstimationByDenom (sampleKeeper ⟨100000000000000000⟩ LegacyOneDec LegacyOneDec)
        ⟨"uosmo", 5⟩ "uatom" "uusdc" "uusdc" "" ⟨0⟩ 0
      = .ret
        { inRoute := []
          outRoute := []
          outAmount := Coin.empty
          spotPrice := LegacyZeroDec
          swapFeeOut := LegacyZeroDec
          discountOut :=
            ((sampleKeeper ⟨100000000000000000⟩ LegacyOneDec LegacyOneDec).tierOf "").Discount
          availableLiquidity := Coin.empty
          slippage := LegacyZeroDec
          weightBonus := LegacyZeroDec
          priceImpact := LegacyZeroDec
          err := some .ErrInvalidDenom } :=
  CalcSwapEstimationByDenom_invalid_denom
    (sampleKeeper ⟨100000000000000000⟩ LegacyOneDec LegacyOneDec) ⟨"uosmo", 5⟩ "uatom" "uusdc"
    "uusdc" "" ⟨0⟩ 0 (by decide) (by decide)

/-- The tail of the estimator when the per-route call returned without error. -/
theorem CalcSwapEstimationByDenom.finish_ok (r : SwapEstimation) (q : RouteSpotPrice)
    (decimals : Nat) (hq : q.err = none) :
    (decimals = 0 →
      ∃ e, CalcSwapEstimationByDenom.finish r q decimals = .ret e ∧ e.err = none ∧
        e.priceImpact = r.priceImpact ∧ e.spotPrice = q.spotPrice) ∧
    (decimals ≠ 0 → q.spotPrice.i = 0 →
      ∃ e, CalcSwapEstimationByDenom.finish r q decimals = .ret e ∧
        e.err = some .spotPriceZero) ∧
    (decimals ≠ 0 → q.spotPrice.i ≠ 0 →
      ∃ e impact, CalcSwapEstimationByDenom.finish r q decimals = .ret e ∧ e.err = none ∧
        (q.spotPrice.Sub q.impactedPrice).Quo q.spotPrice = .ret impact ∧
        e.priceImpact = impact ∧ e.spotPrice = q.spotPrice) := by
  refine ⟨?_, ?_, ?_⟩
  · intro hd
    subst hd
    simp [CalcSwapEstimationByDenom.finish, hq]
  · intro hd hz
    simp [CalcSwapEstimationByDenom.finish, hq, hd, LegacyDec.IsZero, hz]
  · intro hd hz
    have hquo := (LegacyDec.Quo_eq_ret (q.spotPrice.Sub q.impactedPrice) q.spotPrice
      ⟨chopPrecisionAndRound (Int.tdiv ((q.spotPrice.Sub q.impactedPrice).i *
        (precisionReuse * precisionReuse)) q.spotPrice.i)⟩).2 ⟨hz, rfl⟩
    simp [CalcSwapEstimationByDenom.finish, hq, hd, LegacyDec.IsZero, hz, hquo, Outcome.bind]

/-- C12. Let route building and the per-route spot-price call both return without error,
on the forward branch (the denomination of `amount` is `denomIn`) or on the reverse one
(it is `denomOut` and not `denomIn`), and let `q` be what the spot-price call returned.
With `decimals = 0` the estimator returns without error and with price impact zero,
whatever the spot price is. With `decimals ≠ 0` it returns an error when the spot price is
zero, and otherwise returns without error with price impact
`spotPrice.Sub(impactedPrice).Quo(spotPrice)`. -/
theorem CalcSwapEstimationByDenom_price_impact (k : KeeperEnv) (amount : Coin)
    (denomIn denomOut baseCurrency address : String) (overrideSwapFee : LegacyDec)
    (decimals : Nat) (q : RouteSpotPrice)
    (hRoute :
      (amount.Denom = denomIn ∧ ∃ route,
        k.CalcInRouteByDenom denomIn denomOut baseCurrency = .ret (route, none) ∧
        k.CalcInRouteSpotPrice amount route (k.tierOf address).Discount overrideSwapFee
          = .ret q) ∨
      (amount.Denom ≠ denomIn ∧ amount.Denom = denomOut ∧ ∃ route,
        k.CalcOutRouteByDenom denomOut denomIn baseCurrency = .ret (route, none) ∧
        k.CalcOutRouteSpotPrice amount route (k.tierOf address).Discount overrideSwapFee
          = .ret q))
    (hq : q.err = none) :
    (decimals = 0 →
      ∃ e, CalcSwapEstimationByDenom k amount denomIn denomOut baseCurrency address
          overrideSwapFee decimals = .ret e ∧
        e.err = none ∧ e.priceImpact = LegacyZeroDec ∧ e.spotPrice = q.spotPrice) ∧
    (decimals ≠ 0 → q.spotPrice.i = 0 →
      ∃ e, CalcSwapEstimationByDenom k amount denomIn denomOut baseCurrency address
          overrideSwapFee decimals = .ret e ∧
        e.err = some .spotPriceZero) ∧
    (decimals ≠ 0 → q.spotPrice.i ≠ 0 →
      ∃ e impact, CalcSwapEstimationByDenom k amount denomIn denomOut baseCurrency address
          overrideSwapFee decimals = .ret e ∧
        e.err = none ∧
        (q.spotPrice.Sub q.impactedPrice).Quo q.spotPrice = .ret impact ∧
        e.priceImpact = impact ∧ e.spotPrice = q.spotPrice) := by
  rcases hRoute with ⟨hIn, route, hr, hs⟩ | ⟨hIn, hOut, route, hr, hs⟩
  · have hrun : CalcSwapEstimationByDenom k amount denomIn denomOut baseCurrency address
        overrideSwapFee decimals
        = CalcSwapEstimationByDenom.finish
            { SwapEstimation.initial (k.tierOf address) with inRoute := route, err := none }
            q decimals := by
      unfold CalcSwapEstimationByDenom
      simp [hIn, hr, hs, Outcome.bind]
    rw [hrun]
    exact CalcSwapEstimationByDenom.finish_ok _ q decimals hq
  · have hrun : CalcSwapEstimationByDenom k amount denomIn denomOut baseCurrency address
        overrideSwapFee decimals
        = CalcSwapEstimationByDenom.finish
            { SwapEstimation.initial (k.tierOf address) with outRoute := route, err := none }
            q decimals := by
      unfold CalcSwapEstimationByDenom
      simp only [if_neg hIn, if_pos hOut, hr, hs, Outcome.bind]
    rw [hrun]
    exact CalcSwapEstimationByDenom.finish_ok _ q decimals hq

/-- C12, at concrete calls: with spot price zero the estimate succeeds when `decimals = 0`
and fails when `decimals = 6`; with spot price 2 and impacted price 1.5 the price impact
is 0.25. -/
theorem CalcSwapEstimationByDenom_price_impact_witness :
    (∃ e, CalcSwapEstimationByDenom
          (sampleKeeper ⟨0⟩ ⟨0⟩ ⟨1500000000000000000⟩) ⟨"uatom", 5⟩ "uatom" "uusdc" "uusdc"
          "elys1" ⟨0⟩ 0 = .ret e ∧
        e.err = none ∧ e.priceImpact = LegacyZeroDec ∧ e.spotPrice = ⟨0⟩) ∧
    (∃ e, CalcSwapEstimationByDenom
          (sampleKeeper ⟨0⟩ ⟨0⟩ ⟨1500000000000000000⟩) ⟨"uatom", 5⟩ "uatom" "uusdc" "uusdc"
          "elys1" ⟨0⟩ 6 = .ret e ∧
        e.err = some .spotPriceZero) ∧
    (∃ e impact, CalcSwapEstimationByDenom
          (sampleKeeper ⟨0⟩ ⟨2000000000000000000⟩ ⟨1500000000000000000⟩) ⟨"uusdc", 5⟩ "uatom"
          "uusdc" "uusdc" "elys1" ⟨0⟩ 6 = .ret e ∧
        e.err = none ∧
        ((⟨2000000000000000000⟩ : LegacyDec).Sub ⟨1500000000000000000⟩).Quo
          ⟨2000000000000000000⟩ = .ret impact ∧
        e.priceImpact = impact ∧ e.spotPrice = ⟨2000000000000000000⟩) :=
  ⟨(CalcSwapEstimationByDenom_price_impact (sampleKeeper ⟨0⟩ ⟨0⟩ ⟨1500000000000000000⟩)
      ⟨"uatom", 5⟩ "uatom" "uusdc" "uusdc" "elys1" ⟨0⟩ 0
      ⟨⟨0⟩, ⟨1500000000000000000⟩, ⟨"uusdc", 5⟩, ⟨0⟩, ⟨"uusdc", 1000⟩, LegacyZeroDec,
        LegacyZeroDec, none⟩
      (Or.inl ⟨by decide, [⟨1, "uusdc"⟩], by decide, by decide⟩) (by decide)).1 rfl,
    (CalcSwapEstimationByDenom_price_impact (sampleKeeper ⟨0⟩ ⟨0⟩ ⟨1500000000000000000⟩)
      ⟨"uatom", 5⟩ "uatom" "uusdc" "uusdc" "elys1" ⟨0⟩ 6
      ⟨⟨0⟩, ⟨1500000000000000000⟩, ⟨"uusdc", 5⟩, ⟨0⟩, ⟨"uusdc", 1000⟩, LegacyZeroDec,
        LegacyZeroDec, none⟩
      (Or.inl ⟨by decide, [⟨1, "uusdc"⟩], by decide, by decide⟩) (by decide)).2.1
      (by decide) (by decide),
    (CalcSwapEstimationByDenom_price_impact
      (sampleKeeper ⟨0⟩ ⟨2000000000000000000⟩ ⟨1500000000000000000⟩)
      ⟨"uusdc", 5⟩ "uatom" "uusdc" "uusdc" "elys1" ⟨0⟩ 6
      ⟨⟨2000000000000000000⟩, ⟨1500000000000000000⟩, ⟨"uatom", 5⟩, ⟨0⟩, ⟨"uatom", 1000⟩,
        LegacyZeroDec, LegacyZeroDec, none⟩
      (Or.inr ⟨by decide, by decide, [⟨1, "uatom"⟩], by decide, by decide⟩) (by decide)).2.2
      (by decide) (by decide)⟩

/-! ## Normalised weights -/

theorem LegacyDec.Quo_eq_QuoValue (a b : LegacyDec) (hb : b.i ≠ 0) :
    a.Quo b = .ret (a.QuoValue b) :=
  (LegacyDec.Quo_eq_ret a b _).2 ⟨hb, rfl⟩

theorem List.foldl_add_weight (l : List PoolAsset) (init : Int) :
    l.foldl (fun t asset => t + asset.Weight) init = init + (l.map PoolAsset.Weight).sum := by
  induction l generalizing init with
  | nil => simp
  | cons a l ih => simp [ih, Int.add_assoc]

theorem NormalizedWeights.loop_returns (totalWeight : Int) (hT : totalWeight ≠ 0)
    (poolAssets : List PoolAsset) (poolWeights : List AssetWeight) :
    NormalizedWeights.loop totalWeight poolAssets poolWeights
      = .ret (poolWeights ++ poolAssets.map fun a =>
          ⟨a.Token.Denom,
            (LegacyNewDecFromInt a.Weight).QuoValue (LegacyNewDecFromInt totalWeight)⟩) := by
  induction poolAssets generalizing poolWeights with
  | nil => simp [NormalizedWeights.loop]
  | cons a l ih =>
    have hne : (LegacyNewDecFromInt totalWeight).i ≠ 0 := by
      show totalWeight * precisionReuse ≠ 0
      exact Int.mul_ne_zero hT (by decide)
    simp [NormalizedWeights.loop, LegacyDec.Quo_eq_QuoValue _ _ hne, Outcome.bind, ih]

/-- Summing quotients that are each within one unit of the exact quotient: the sum is within
one unit per entry of the exact sum. -/
theorem List.sum_quotient_error {α : Type} (l : List α) (q a : α → Int) (b : Int)
    (h : ∀ x ∈ l, q x * b ≤ a x * precisionReuse + b ∧ a x * precisionReuse ≤ q x * b + b) :
    (l.map q).sum * b ≤ (l.map a).sum * precisionReuse + l.length * b ∧
    (l.map a).sum * precisionReuse ≤ (l.map q).sum * b + l.length * b := by
  induction l with
  | nil => simp
  | cons x l ih =>
    have hx := h x (List.mem_cons_self x l)
    have hl := ih fun y hy => h y (List.mem_cons_of_mem x hy)
    simp only [List.map_cons, List.sum_cons, List.length_cons, Nat.cast_add, Nat.cast_one]
    constructor
    · nlinarith [hx.1, hl.1]
    · nlinarith [hx.2, hl.2]

/-- When the exact sum is the divisor itself, the sum of the quotients is within one unit per
entry of one. -/
theorem List.sum_quotient_near_one {α : Type} (l : List α) (q a : α → Int) (b : Int)
    (hb : 0 < b) (hsum : (l.map a).sum = b)
    (h : ∀ x ∈ l, q x * b ≤ a x * precisionReuse + b ∧ a x * precisionReuse ≤ q x * b + b) :
    |(l.map q).sum - precisionReuse| ≤ l.length := by
  obtain ⟨h1, h2⟩ := List.sum_quotient_error l q a b h
  rw [hsum] at h1 h2
  rw [abs_le]
  constructor
  · have : (precisionReuse - (l.length : Int)) * b ≤ (l.map q).sum * b := by nlinarith
    have := le_of_mul_le_mul_right this hb
    omega
  · have : (l.map q).sum * b ≤ (precisionReuse + (l.length : Int)) * b := by nlinarith
    have := le_of_mul_le_mul_right this hb
    omega

/-- C13. For every asset list with non-negative weights and positive total weight,
`NormalizedWeights` returns one entry per asset, in the order of the list, carrying the
asset's denomination and the quotient `weight.Quo(totalWeight)` of the two weights as
18-digit decimals, which is within `10^-18` of the exact quotient; and the returned weights
sum to one within `n * 10^-18`, `n` being the number of assets. -/
theorem NormalizedWeights_sum_to_one (poolAssets : List PoolAsset)
    (hNonneg : ∀ a ∈ poolAssets, 0 ≤ a.Weight)
    (hPos : 0 < (poolAssets.map PoolAsset.Weight).sum) :
    ∃ ws, NormalizedWeights poolAssets = .ret ws ∧
      ws.length = poolAssets.length ∧
      List.Forall₂ (fun a w =>
          w.Asset = a.Token.Denom ∧
          (LegacyNewDecFromInt a.Weight).Quo
              (LegacyNewDecFromInt (poolAssets.map PoolAsset.Weight).sum) = .ret w.Weight ∧
          |w.Weight.i * (poolAssets.map PoolAsset.Weight).sum - a.Weight * precisionReuse|
            ≤ (poolAssets.map PoolAsset.Weight).sum)
        poolAssets ws ∧
      |(ws.map fun w => w.Weight.i).sum - precisionReuse| ≤ poolAssets.length := by
  have hP : (0 : Int) < precisionReuse := by decide
  generalize hT : (poolAssets.map PoolAsset.Weight).sum = T at hPos ⊢
  have hT0 : T ≠ 0 := Int.ne_of_gt hPos
  have hTP : (LegacyNewDecFromInt T).i ≠ 0 := by
    show T * precisionReuse ≠ 0
    exact Int.mul_ne_zero hT0 (by decide)
  have hrun : NormalizedWeights poolAssets
      = .ret (poolAssets.map fun a =>
          ⟨a.Token.Denom, (LegacyNewDecFromInt a.Weight).QuoValue (LegacyNewDecFromInt T)⟩) := by
    unfold NormalizedWeights
    simp only [List.foldl_add_weight, Int.zero_add, hT, hT0, if_false]
    rw [NormalizedWeights.loop_returns T hT0]
    simp
  have herr : ∀ a ∈ poolAssets,
      ((LegacyNewDecFromInt a.Weight).QuoValue (LegacyNewDecFromInt T)).i * T
          ≤ a.Weight * precisionReuse + T ∧
      a.Weight * precisionReuse
          ≤ ((LegacyNewDecFromInt a.Weight).QuoValue (LegacyNewDecFromInt T)).i * T + T := by
    intro a ha
    have hq := LegacyDec.Quo_error (LegacyNewDecFromInt a.Weight) (LegacyNewDecFromInt T) _
      (Int.mul_nonneg (hNonneg a ha) (Int.le_of_lt hP)) (Int.mul_pos hPos hP)
      (LegacyDec.Quo_eq_QuoValue _ _ hTP)
    generalize ((LegacyNewDecFromInt a.Weight).QuoValue (LegacyNewDecFromInt T)).i = q at hq ⊢
    have h1 : q * (T * precisionReuse) ≤ a.Weight * precisionReuse * precisionReuse
        + T * precisionReuse := hq.2.1
    have h2 : a.Weight * precisionReuse * precisionReuse
        ≤ q * (T * precisionReuse) + T * precisionReuse := hq.2.2
    constructor
    · have : (q * T) * precisionReuse ≤ (a.Weight * precisionReuse + T) * precisionReuse := by
        nlinarith
      exact le_of_mul_le_mul_right this hP
    · have : (a.Weight * precisionReuse) * precisionReuse ≤ (q * T + T) * precisionReuse := by
        nlinarith
      exact le_of_mul_le_mul_right this hP
  refine ⟨_, hrun, by simp, ?_, ?_⟩
  · rw [List.forall₂_map_right_iff, List.forall₂_same]
    intro a ha
    refine ⟨rfl, LegacyDec.Quo_eq_QuoValue _ _ hTP, ?_⟩
    show |((LegacyNewDecFromInt a.Weight).QuoValue (LegacyNewDecFromInt T)).i * T
      - a.Weight * precisionReuse| ≤ T
    rw [abs_le]
    have := herr a ha
    constructor <;> omega
  · rw [List.map_map]
    exact List.sum_quotient_near_one poolAssets
      (fun a => ((LegacyNewDecFromInt a.Weight).QuoValue (LegacyNewDecFromInt T)).i)
      PoolAsset.Weight T hPos hT herr

/-- C13, at a concrete list: three assets of weight one get a third each, and the thirds
sum to one minus `10^-18`. -/
theorem NormalizedWeights_sum_to_one_witness :
    NormalizedWeights [⟨⟨"a", 1⟩, 1⟩, ⟨⟨"b", 1⟩, 1⟩, ⟨⟨"c", 1⟩, 1⟩]
      = .ret [⟨"a", ⟨333333333333333333⟩⟩, ⟨"b", ⟨333333333333333333⟩⟩,
          ⟨"c", ⟨333333333333333333⟩⟩] ∧
    ∃ ws, NormalizedWeights [⟨⟨"a", 1⟩, 1⟩, ⟨⟨"b", 1⟩, 1⟩, ⟨⟨"c", 1⟩, 1⟩] = .ret ws ∧
      |(ws.map fun w => w.Weight.i).sum - precisionReuse|
        ≤ ([⟨⟨"a", 1⟩, 1⟩, ⟨⟨"b", 1⟩, 1⟩, ⟨⟨"c", 1⟩, 1⟩] : List PoolAsset).length := by
  obtain ⟨ws, hrun, _, _, hsum⟩ :=
    NormalizedWeights_sum_to_one [⟨⟨"a", 1⟩, 1⟩, ⟨⟨"b", 1⟩, 1⟩, ⟨⟨"c", 1⟩, 1⟩]
      (by decide) (by decide)
  exact ⟨by decide, ws, hrun, hsum⟩

/-! ## Oracle weights -/

theorem GetOraclePoolNormalizedWeights.collect_ok (env : Env) (poolAssets : List PoolAsset)
    (h : ∀ a ∈ poolAssets, (env.GetAssetPriceFromDenom a.Token.Denom).i ≠ 0)
    (oraclePoolWeights : List AssetWeight) (totalWeight : LegacyDec) :
    GetOraclePoolNormalizedWeights.collect env poolAssets oraclePoolWeights totalWeight
      = (oraclePoolWeights ++ poolAssets.map fun a =>
            ⟨a.Token.Denom, (LegacyNewDecFromInt a.Token.Amount).Mul
              (env.GetAssetPriceFromDenom a.Token.Denom)⟩,
          ⟨totalWeight.i + (poolAssets.map fun a =>
            ((LegacyNewDecFromInt a.Token.Amount).Mul
              (env.GetAssetPriceFromDenom a.Token.Denom)).i).sum⟩,
          none) := by
  induction poolAssets generalizing oraclePoolWeights totalWeight with
  | nil => simp [GetOraclePoolNormalizedWeights.collect]
  | cons a l ih =>
    have ha := h a (List.mem_cons_self a l)
    have hl := fun x hx => h x (List.mem_cons_of_mem a hx)
    simp [GetOraclePoolNormalizedWeights.collect, LegacyDec.IsZero, ha, ih hl,
      LegacyDec.Add, Int.add_assoc]

theorem GetOraclePoolNormalizedWeights.collect_fail (env : Env) (poolAssets : List PoolAsset)
    (h : ∃ a ∈ poolAssets, (env.GetAssetPriceFromDenom a.Token.Denom).i = 0)
    (oraclePoolWeights : List AssetWeight) (totalWeight : LegacyDec) :
    ∃ ws t d,
      GetOraclePoolNormalizedWeights.collect env poolAssets oraclePoolWeights totalWeight
        = (ws, t, some (.priceNotSet d)) ∧
      (env.GetAssetPriceFromDenom d).i = 0 ∧ d ∈ poolAssets.map fun a => a.Token.Denom := by
  induction poolAssets generalizing oraclePoolWeights totalWeight with
  | nil => obtain ⟨a, ha, _⟩ := h; cases ha
  | cons a l ih =>
    by_cases hz : (env.GetAssetPriceFromDenom a.Token.Denom).i = 0
    · exact ⟨oraclePoolWeights, totalWeight, a.Token.Denom,
        by simp [GetOraclePoolNormalizedWeights.collect, LegacyDec.IsZero, hz], hz, by simp⟩
    · have hl : ∃ x ∈ l, (env.GetAssetPriceFromDenom x.Token.Denom).i = 0 := by
        obtain ⟨x, hx, hx0⟩ := h
        rcases List.mem_cons.1 hx with rfl | hx
        · exact absurd hx0 hz
        · exact ⟨x, hx, hx0⟩
      obtain ⟨ws, t, d, hrun, hd0, hd⟩ := ih hl
        (oraclePoolWeights ++ [⟨a.Token.Denom, (LegacyNewDecFromInt a.Token.Amount).Mul
          (env.GetAssetPriceFromDenom a.Token.Denom)⟩])
        (totalWeight.Add ((LegacyNewDecFromInt a.Token.Amount).Mul
          (env.GetAssetPriceFromDenom a.Token.Denom)))
      refine ⟨ws, t, d, ?_, hd0, ?_⟩
      · simp only [GetOraclePoolNormalizedWeights.collect, LegacyDec.IsZero, hz,
          decide_False, Bool.false_eq_true, if_false]
        exact hrun
      · simp only [List.map_cons, List.mem_cons]
        exact Or.inr hd

theorem GetOraclePoolNormalizedWeights.normalize_eq (totalWeight : LegacyDec)
    (hT : totalWeight.i ≠ 0) (ws : List AssetWeight) :
    GetOraclePoolNormalizedWeights.normalize totalWeight ws
      = .ret (ws.map fun w => ⟨w.Asset, w.Weight.QuoValue totalWeight⟩) := by
  induction ws with
  | nil => rfl
  | cons w ws ih =>
    simp [GetOraclePoolNormalizedWeights.normalize, LegacyDec.Quo_eq_QuoValue _ _ hT,
      Outcome.bind, ih]

/-- The result of `GetOraclePoolNormalizedWeights` on a list whose prices are all set. -/
theorem GetOraclePoolNormalizedWeights_ok (env : Env) (poolId : Nat)
    (poolAssets : List PoolAsset)
    (h : ∀ a ∈ poolAssets, (env.GetAssetPriceFromDenom a.Token.Denom).i ≠ 0) :
    GetOraclePoolNormalizedWeights env poolId poolAssets
      = .ret (poolAssets.map fun a =>
          ⟨a.Token.Denom, (env.assetValue a).QuoValue
            (if env.totalValue poolAssets = 0 then LegacyOneDec
              else ⟨env.totalValue poolAssets⟩)⟩, none) := by
  unfold GetOraclePoolNormalizedWeights
  rw [GetOraclePoolNormalizedWeights.collect_ok env poolAssets h]
  simp only [List.nil_append]
  have hsum : LegacyZeroDec.i + (poolAssets.map fun a =>
      ((LegacyNewDecFromInt a.Token.Amount).Mul
        (env.GetAssetPriceFromDenom a.Token.Denom)).i).sum = env.totalValue poolAssets := by
    show (0 : Int) + _ = _
    rw [Int.zero_add]
    rfl
  rw [hsum]
  by_cases hz : env.totalValue poolAssets = 0
  · have hne : LegacyOneDec.i ≠ 0 := by decide
    simp [hz, LegacyDec.IsZero, GetOraclePoolNormalizedWeights.normalize_eq _ hne,
      Outcome.bind, Env.assetValue]
  · have hne : (⟨env.totalValue poolAssets⟩ : LegacyDec).i ≠ 0 := hz
    simp [hz, LegacyDec.IsZero, GetOraclePoolNormalizedWeights.normalize_eq _ hne,
      Outcome.bind, Env.assetValue]

/-- C14 (amended). `GetOraclePoolNormalizedWeights` returns a price-not-set error when an
asset of the list has price zero. When every price is nonzero it returns without error
one entry per asset, in order, carrying the asset's denomination and the quotient of the
asset's value (balance times price) by the total value, or by one when the total value is
zero; and when the balances and prices are non-negative and the total value is positive,
the returned weights sum to one within `n * 10^-18`. -/
theorem GetOraclePoolNormalizedWeights_spec (env : Env) (poolId : Nat)
    (poolAssets : List PoolAsset) :
    ((∃ a ∈ poolAssets, (env.GetAssetPriceFromDenom a.Token.Denom).i = 0) →
      ∃ ws d, GetOraclePoolNormalizedWeights env poolId poolAssets
          = .ret (ws, some (.priceNotSet d)) ∧
        (env.GetAssetPriceFromDenom d).i = 0 ∧ d ∈ poolAssets.map fun a => a.Token.Denom) ∧
    ((∀ a ∈ poolAssets, (env.GetAssetPriceFromDenom a.Token.Denom).i ≠ 0) →
      ∃ ws, GetOraclePoolNormalizedWeights env poolId poolAssets = .ret (ws, none) ∧
        ws.length = poolAssets.length ∧
        List.Forall₂ (fun a w =>
            w.Asset = a.Token.Denom ∧
            (env.assetValue a).Quo
                (if env.totalValue poolAssets = 0 then LegacyOneDec
                  else ⟨env.totalValue poolAssets⟩) = .ret w.Weight)
          poolAssets ws ∧
        ((∀ a ∈ poolAssets, 0 ≤ a.Token.Amount ∧
            0 ≤ (env.GetAssetPriceFromDenom a.Token.Denom).i) →
          0 < env.totalValue poolAssets →
          |(ws.map fun w => w.Weight.i).sum - precisionReuse| ≤ poolAssets.length)) := by
  constructor
  · intro h
    obtain ⟨ws, t, d, hrun, hd0, hd⟩ :=
      GetOraclePoolNormalizedWeights.collect_fail env poolAssets h [] LegacyZeroDec
    refine ⟨ws, d, ?_, hd0, hd⟩
    unfold GetOraclePoolNormalizedWeights
    rw [hrun]
  · intro h
    refine ⟨_, GetOraclePoolNormalizedWeights_ok env poolId poolAssets h, by simp, ?_, ?_⟩
    · rw [List.forall₂_map_right_iff, List.forall₂_same]
      intro a _
      refine ⟨rfl, LegacyDec.Quo_eq_QuoValue _ _ ?_⟩
      by_cases hz : env.totalValue poolAssets = 0
      · rw [if_pos hz]; decide
      · rw [if_neg hz]; exact hz
    · intro hsign hpos
      have hz : env.totalValue poolAssets ≠ 0 := Int.ne_of_gt hpos
      rw [if_neg hz, List.map_map]
      have hP : (0 : Int) < precisionReuse := by decide
      apply List.sum_quotient_near_one poolAssets
        (fun a => ((env.assetValue a).QuoValue ⟨env.totalValue poolAssets⟩).i)
        (fun a => (env.assetValue a).i) (env.totalValue poolAssets) hpos rfl
      intro a ha
      have hv : 0 ≤ (env.assetValue a).i :=
        LegacyDec.Mul_nonneg _ _ (Int.mul_nonneg (hsign a ha).1 (Int.le_of_lt hP))
          (hsign a ha).2
      have hq := LegacyDec.Quo_error (env.assetValue a) ⟨env.totalValue poolAssets⟩ _ hv hpos
        (LegacyDec.Quo_eq_QuoValue _ _ hz)
      exact hq.2

/-- C14, as stated, fails: a one-asset list with balance zero and price one has every price
set, and the single weight returned is zero, so the weights sum to zero, not to one. -/
theorem GetOraclePoolNormalizedWeights_zero_total :
    (sampleEnv LegacyOneDec LegacyOneDec 0 ⟨0⟩ true).GetAssetPriceFromDenom "uatom"
      = LegacyOneDec ∧
    GetOraclePoolNormalizedWeights (sampleEnv LegacyOneDec LegacyOneDec 0 ⟨0⟩ true) 1
        [⟨⟨"uatom", 0⟩, 1⟩]
      = .ret ([⟨"uatom", LegacyZeroDec⟩], none) ∧
    (([⟨"uatom", LegacyZeroDec⟩] : List AssetWeight).map fun w => w.Weight.i).sum = 0 := by
  decide

/-- C14 (amended), at concrete lists: balances 3000 and 1000 at price one get the weights
0.75 and 0.25, which sum to one; a list with an unpriced asset is refused. -/
theorem GetOraclePoolNormalizedWeights_spec_witness :
    (∃ ws, GetOraclePoolNormalizedWeights (sampleEnv LegacyOneDec LegacyOneDec 0 ⟨0⟩ true) 1
          [⟨⟨"uatom", 3000⟩, 1⟩, ⟨⟨"uusdc", 1000⟩, 1⟩] = .ret (ws, none) ∧
        |(ws.map fun w => w.Weight.i).sum - precisionReuse|
          ≤ ([⟨⟨"uatom", 3000⟩, 1⟩, ⟨⟨"uusdc", 1000⟩, 1⟩] : List PoolAsset).length) ∧
    (∃ ws d, GetOraclePoolNormalizedWeights (pricedEnv ⟨0⟩ LegacyOneDec 0) 1
          [⟨⟨"uusdc", 3000⟩, 1⟩, ⟨⟨"uatom", 1000⟩, 1⟩] = .ret (ws, some (.priceNotSet d)) ∧
        ((pricedEnv ⟨0⟩ LegacyOneDec 0).GetAssetPriceFromDenom d).i = 0) := by
  constructor
  · obtain ⟨ws, hrun, _, _, hsum⟩ :=
      (GetOraclePoolNormalizedWeights_spec (sampleEnv LegacyOneDec LegacyOneDec 0 ⟨0⟩ true) 1
        [⟨⟨"uatom", 3000⟩, 1⟩, ⟨⟨"uusdc", 1000⟩, 1⟩]).2 (by decide)
    exact ⟨ws, hrun, hsum (by decide) (by decide)⟩
  · obtain ⟨ws, d, hrun, hd0, _⟩ :=
      (GetOraclePoolNormalizedWeights_spec (pricedEnv ⟨0⟩ LegacyOneDec 0) 1
        [⟨⟨"uusdc", 3000⟩, 1⟩, ⟨⟨"uatom", 1000⟩, 1⟩]).1 (by decide)
    exact ⟨ws, d, hrun, hd0⟩

/-! ## Weight distance -/

/-- `NormalizedWeights` always returns: the divisor is the total weight, or one when the
total is zero. -/
theorem NormalizedWeights_eq (poolAssets : List PoolAsset) :
    NormalizedWeights poolAssets
      = .ret (poolAssets.map fun a =>
          ⟨a.Token.Denom, (LegacyNewDecFromInt a.Weight).QuoValue
            (LegacyNewDecFromInt (if (poolAssets.map PoolAsset.Weight).sum = 0 then 1
              else (poolAssets.map PoolAsset.Weight).sum))⟩) := by
  unfold NormalizedWeights
  simp only [List.foldl_add_weight, Int.zero_add]
  have hT : (if (poolAssets.map PoolAsset.Weight).sum = 0 then (1 : Int)
      else (poolAssets.map PoolAsset.Weight).sum) ≠ 0 := by
    split
    · decide
    · assumption
  rw [NormalizedWeights.loop_returns _ hT]
  simp

theorem WeightDistanceFromTarget.loop_sums (poolAssets : List PoolAsset)
    (targetWeights oracleWeights : List AssetWeight) (distanceSum : LegacyDec)
    (ht : targetWeights.length = poolAssets.length)
    (ho : oracleWeights.length = poolAssets.length) :
    WeightDistanceFromTarget.loop poolAssets targetWeights oracleWeights distanceSum
      = .ret ⟨distanceSum.i + (List.zipWith (fun t o => |t.Weight.i - o.Weight.i|)
          targetWeights oracleWeights).sum⟩ := by
  induction poolAssets generalizing targetWeights oracleWeights distanceSum with
  | nil =>
    cases targetWeights with
    | nil => simp [WeightDistanceFromTarget.loop]
    | cons _ _ => simp at ht
  | cons a l ih =>
    cases targetWeights with
    | nil => simp at ht
    | cons t ts =>
      cases oracleWeights with
      | nil => simp at ho
      | cons o os =>
        simp only [List.length_cons, Nat.add_right_cancel_iff] at ht ho
        simp only [WeightDistanceFromTarget.loop, ih ts os _ ht ho, List.zipWith_cons_cons,
          List.sum_cons, LegacyDec.Add, LegacyDec.Sub, LegacyDec.Abs, Int.add_assoc]

/-- C15 (amended). `WeightDistanceFromTarget` returns zero when the asset list is empty
and when the oracle-weight computation fails. Otherwise it returns zero when the pool has
no assets of its own, and else the sum over the given assets of
`|normalizedWeight_i - oracleWeight_i|` divided by the number of the pool's own assets
(`len(p.PoolAssets)`); this is the number of assets of the given list when the two lists
have the same length. -/
theorem WeightDistanceFromTarget_spec (env : Env) (p : Pool) (poolAssets : List PoolAsset) :
    (poolAssets = [] → p.WeightDistanceFromTarget env poolAssets = .ret LegacyZeroDec) ∧
    (∀ ws e, GetOraclePoolNormalizedWeights env p.PoolId poolAssets = .ret (ws, some e) →
      p.WeightDistanceFromTarget env poolAssets = .ret LegacyZeroDec) ∧
    (∀ oracleWeights,
      GetOraclePoolNormalizedWeights env p.PoolId poolAssets = .ret (oracleWeights, none) →
      ∃ targetWeights, NormalizedWeights poolAssets = .ret targetWeights ∧
        p.WeightDistanceFromTarget env poolAssets
          = (if p.PoolAssets.length = 0 then .ret LegacyZeroDec
            else (⟨(List.zipWith (fun t o => |t.Weight.i - o.Weight.i|)
                targetWeights oracleWeights).sum⟩ : LegacyDec).Quo
              (LegacyNewDec (p.PoolAssets.length : Int))) ∧
        (p.PoolAssets.length = poolAssets.length → poolAssets ≠ [] →
          p.WeightDistanceFromTarget env poolAssets
            = (⟨(List.zipWith (fun t o => |t.Weight.i - o.Weight.i|)
                targetWeights oracleWeights).sum⟩ : LegacyDec).Quo
              (LegacyNewDec (poolAssets.length : Int)))) := by
  have hpart : ∀ oracleWeights,
      GetOraclePoolNormalizedWeights env p.PoolId poolAssets = .ret (oracleWeights, none) →
      ∃ targetWeights, NormalizedWeights poolAssets = .ret targetWeights ∧
        p.WeightDistanceFromTarget env poolAssets
          = (if p.PoolAssets.length = 0 then .ret LegacyZeroDec
            else (⟨(List.zipWith (fun t o => |t.Weight.i - o.Weight.i|)
                targetWeights oracleWeights).sum⟩ : LegacyDec).Quo
              (LegacyNewDec (p.PoolAssets.length : Int))) := by
    intro ow how
    refine ⟨_, NormalizedWeights_eq poolAssets, ?_⟩
    have hlen : ow.length = poolAssets.length := by
      by_cases hprice : ∀ a ∈ poolAssets, (env.GetAssetPriceFromDenom a.Token.Denom).i ≠ 0
      · rw [GetOraclePoolNormalizedWeights_ok env p.PoolId poolAssets hprice] at how
        simp only [Outcome.ret.injEq, Prod.mk.injEq, and_true] at how
        rw [← how]
        simp
      · have hex : ∃ a ∈ poolAssets, (env.GetAssetPriceFromDenom a.Token.Denom).i = 0 := by
          by_contra hno
          apply hprice
          intro a ha hz
          exact hno ⟨a, ha, hz⟩
        obtain ⟨ws, t, d, hrun, _, _⟩ :=
          GetOraclePoolNormalizedWeights.collect_fail env poolAssets hex [] LegacyZeroDec
        unfold GetOraclePoolNormalizedWeights at how
        rw [hrun] at how
        simp at how
    unfold Pool.WeightDistanceFromTarget
    rw [how, NormalizedWeights_eq]
    simp only [Outcome.bind]
    rw [WeightDistanceFromTarget.loop_sums poolAssets _ ow LegacyZeroDec (by simp) hlen]
    simp only [LegacyZeroDec, Int.zero_add]
  refine ⟨?_, ?_, ?_⟩
  · intro hnil
    subst hnil
    have how : GetOraclePoolNormalizedWeights env p.PoolId [] = .ret ([], none) := rfl
    obtain ⟨tw, htw, hrun⟩ := hpart [] how
    rw [hrun]
    have : NormalizedWeights [] = .ret [] := rfl
    rw [this] at htw
    simp only [Outcome.ret.injEq] at htw
    subst htw
    split
    · rfl
    · rename_i hlen
      have hne : (LegacyNewDec (p.PoolAssets.length : Int)).i ≠ 0 := by
        show (p.PoolAssets.length : Int) * precisionReuse ≠ 0
        exact Int.mul_ne_zero (by exact_mod_cast hlen) (by decide)
      rw [LegacyDec.Quo_eq_QuoValue _ _ hne]
      simp [LegacyDec.QuoValue, LegacyZeroDec]
      decide
  · intro ws e how
    unfold Pool.WeightDistanceFromTarget
    rw [how]
    rfl
  · intro ow how
    obtain ⟨tw, htw, hrun⟩ := hpart ow how
    refine ⟨tw, htw, hrun, ?_⟩
    intro hlen hne
    rw [hrun, hlen]
    have : poolAssets.length ≠ 0 := by
      intro h0
      exact hne (List.length_eq_zero.1 h0)
    rw [if_neg this]

/-- C15, as stated, fails: on the two-asset sample pool, the three-asset list below has
normalised weights 0.25, 0.25, 0.5 and oracle weights 0.375, 0.125, 0.5, so the sum of the
distances is 0.25; the code returns 0.25 / 2 = 0.125, the division being by the two assets
of the pool, not 0.25 / 3 = 0.0833…, the division by the three assets of the list. -/
theorem WeightDistanceFromTarget_divides_by_pool_length :
    (samplePool true).WeightDistanceFromTarget (sampleEnv LegacyOneDec LegacyOneDec 0 ⟨0⟩ true)
        [⟨⟨"uatom", 3000⟩, 1⟩, ⟨⟨"uusdc", 1000⟩, 1⟩, ⟨⟨"uosmo", 4000⟩, 2⟩]
      = .ret ⟨125000000000000000⟩ ∧
    NormalizedWeights [⟨⟨"uatom", 3000⟩, 1⟩, ⟨⟨"uusdc", 1000⟩, 1⟩, ⟨⟨"uosmo", 4000⟩, 2⟩]
      = .ret [⟨"uatom", ⟨250000000000000000⟩⟩, ⟨"uusdc", ⟨250000000000000000⟩⟩,
          ⟨"uosmo", ⟨500000000000000000⟩⟩] ∧
    GetOraclePoolNormalizedWeights (sampleEnv LegacyOneDec LegacyOneDec 0 ⟨0⟩ true) 1
        [⟨⟨"uatom", 3000⟩, 1⟩, ⟨⟨"uusdc", 1000⟩, 1⟩, ⟨⟨"uosmo", 4000⟩, 2⟩]
      = .ret ([⟨"uatom", ⟨375000000000000000⟩⟩, ⟨"uusdc", ⟨125000000000000000⟩⟩,
          ⟨"uosmo", ⟨500000000000000000⟩⟩], none) ∧
    (⟨250000000000000000⟩ : LegacyDec).Quo (LegacyNewDec 3) = .ret ⟨83333333333333333⟩ := by
  decide

/-- C15 (amended), at a concrete call: on the two-asset sample pool, the two-asset list
with balances 3000 and 1000 and equal weights is at distance (0.25 + 0.25) / 2 = 0.25. -/
theorem WeightDistanceFromTarget_spec_witness :
    (samplePool true).WeightDistanceFromTarget (sampleEnv LegacyOneDec LegacyOneDec 0 ⟨0⟩ true)
        [⟨⟨"uatom", 3000⟩, 1⟩, ⟨⟨"uusdc", 1000⟩, 1⟩]
      = .ret ⟨250000000000000000⟩ ∧
    ∃ targetWeights,
      NormalizedWeights [⟨⟨"uatom", 3000⟩, 1⟩, ⟨⟨"uusdc", 1000⟩, 1⟩] = .ret targetWeights ∧
      (samplePool true).WeightDistanceFromTarget
          (sampleEnv LegacyOneDec LegacyOneDec 0 ⟨0⟩ true)
          [⟨⟨"uatom", 3000⟩, 1⟩, ⟨⟨"uusdc", 1000⟩, 1⟩]
        = (⟨(List.zipWith (fun (t o : AssetWeight) => |t.Weight.i - o.Weight.i|) targetWeights
              [⟨"uatom", ⟨750000000000000000⟩⟩, ⟨"uusdc", ⟨250000000000000000⟩⟩]).sum⟩ :
            LegacyDec).Quo
            (LegacyNewDec (([⟨⟨"uatom", 3000⟩, 1⟩, ⟨⟨"uusdc", 1000⟩, 1⟩] :
              List PoolAsset).length : Int)) := by
  obtain ⟨tw, htw, _, hmean⟩ :=
    (WeightDistanceFromTarget_spec (sampleEnv LegacyOneDec LegacyOneDec 0 ⟨0⟩ true)
      (samplePool true) [⟨⟨"uatom", 3000⟩, 1⟩, ⟨⟨"uusdc", 1000⟩, 1⟩]).2.2
      [⟨"uatom", ⟨750000000000000000⟩⟩, ⟨"uusdc", ⟨250000000000000000⟩⟩] (by decide)
  exact ⟨by decide, tw, htw, hmean (by decide) (by decide)⟩

/-! ## Accounted balances and projected balances -/

/-- C16. `GetAccountedBalance` returns a list of the length of its argument, in the same
order, with every denomination and weight as in the argument. On a pool that is not
oracle-backed the list is the argument itself. On an oracle-backed pool each amount is the
accounted balance of the pool id and denomination when that balance is strictly positive,
and the amount of the argument otherwise. The function builds a new list from copies of
the elements, so neither the argument nor the pool is written to. -/
theorem GetAccountedBalance_spec (env : Env) (p : Pool) (poolAssets : List PoolAsset) :
    (p.GetAccountedBalance env poolAssets).length = poolAssets.length ∧
    ((p.GetAccountedBalance env poolAssets).map fun a => a.Token.Denom)
      = (poolAssets.map fun a => a.Token.Denom) ∧
    ((p.GetAccountedBalance env poolAssets).map fun a => a.Weight)
      = (poolAssets.map fun a => a.Weight) ∧
    (p.PoolParams.UseOracle = false → p.GetAccountedBalance env poolAssets = poolAssets) ∧
    (p.PoolParams.UseOracle = true →
      ((p.GetAccountedBalance env poolAssets).map fun a => a.Token.Amount)
        = poolAssets.map fun a =>
            if 0 < env.GetAccountedBalance p.PoolId a.Token.Denom then
              env.GetAccountedBalance p.PoolId a.Token.Denom
            else a.Token.Amount) := by
  unfold Pool.GetAccountedBalance
  refine ⟨by simp, ?_, ?_, ?_, ?_⟩
  · rw [List.map_map]
    apply List.map_congr_left
    intro a _
    simp only [Function.comp]
    split_ifs <;> rfl
  · rw [List.map_map]
    apply List.map_congr_left
    intro a _
    simp only [Function.comp]
    split_ifs <;> rfl
  · intro h
    simp [h]
  · intro h
    rw [List.map_map]
    apply List.map_congr_left
    intro a _
    simp only [Function.comp, h, if_true]
    split_ifs <;> rfl

/-- C16, at a concrete call on the oracle-backed sample pool where 1500 `uatom` are
accounted and nothing is accounted for `uusdc`. -/
theorem GetAccountedBalance_spec_witness :
    (samplePool true).GetAccountedBalance
        { sampleEnv LegacyOneDec LegacyOneDec 0 ⟨0⟩ true with
          GetAccountedBalance := fun _ denom => if denom = "uatom" then 1500 else 0 }
        (samplePool true).PoolAssets
      = [⟨⟨"uatom", 1500⟩, 1⟩, ⟨⟨"uusdc", 1000⟩, 1⟩] ∧
    (samplePool false).GetAccountedBalance
        { sampleEnv LegacyOneDec LegacyOneDec 0 ⟨0⟩ true with
          GetAccountedBalance := fun _ denom => if denom = "uatom" then 1500 else 0 }
        (samplePool false).PoolAssets
      = (samplePool false).PoolAssets :=
  ⟨by decide,
    (GetAccountedBalance_spec
      { sampleEnv LegacyOneDec LegacyOneDec 0 ⟨0⟩ true with
        GetAccountedBalance := fun _ denom => if denom = "uatom" then 1500 else 0 }
      (samplePool false) (samplePool false).PoolAssets).2.2.2.1 rfl⟩

theorem NewPoolAssetsAfterSwap.loop_ok (inCoins outCoins : Coins) (poolAssets : List PoolAsset)
    (rest updatedAssets : List PoolAsset)
    (h : ∀ a ∈ rest, 0 ≤ a.Token.Amount + Coins.AmountOf inCoins a.Token.Denom
      - Coins.AmountOf outCoins a.Token.Denom) :
    NewPoolAssetsAfterSwap.loop inCoins outCoins poolAssets rest updatedAssets
      = .ret (updatedAssets ++ rest.map fun a =>
          ⟨⟨a.Token.Denom, a.Token.Amount + Coins.AmountOf inCoins a.Token.Denom
            - Coins.AmountOf outCoins a.Token.Denom⟩, a.Weight⟩, none) := by
  induction rest generalizing updatedAssets with
  | nil => simp [NewPoolAssetsAfterSwap.loop]
  | cons a l ih =>
    have ha := h a (List.mem_cons_self a l)
    have hl := fun x hx => h x (List.mem_cons_of_mem a hx)
    have hneg : ¬ (a.Token.Amount + Coins.AmountOf inCoins a.Token.Denom
        - Coins.AmountOf outCoins a.Token.Denom < 0) := by omega
    simp [NewPoolAssetsAfterSwap.loop, NewCoin, hneg, Outcome.bind, ih _ hl]

theorem NewPoolAssetsAfterSwap.loop_fail (inCoins outCoins : Coins)
    (poolAssets : List PoolAsset) (rest updatedAssets : List PoolAsset)
    (h : ∃ a ∈ rest, a.Token.Amount + Coins.AmountOf inCoins a.Token.Denom
      - Coins.AmountOf outCoins a.Token.Denom < 0) :
    NewPoolAssetsAfterSwap.loop inCoins outCoins poolAssets rest updatedAssets
      = .ret (poolAssets, some .negativePoolAmount) := by
  induction rest generalizing updatedAssets with
  | nil => obtain ⟨a, ha, _⟩ := h; cases ha
  | cons a l ih =>
    by_cases hneg : a.Token.Amount + Coins.AmountOf inCoins a.Token.Denom
        - Coins.AmountOf outCoins a.Token.Denom < 0
    · simp [NewPoolAssetsAfterSwap.loop, hneg]
    · have hl : ∃ x ∈ l, x.Token.Amount + Coins.AmountOf inCoins x.Token.Denom
          - Coins.AmountOf outCoins x.Token.Denom < 0 := by
        obtain ⟨x, hx, hx0⟩ := h
        rcases List.mem_cons.1 hx with rfl | hx
        · exact absurd hx0 hneg
        · exact ⟨x, hx, hx0⟩
      simp [NewPoolAssetsAfterSwap.loop, NewCoin, hneg, Outcome.bind, ih _ hl]

/-- C17. `NewPoolAssetsAfterSwap` returns an error, together with the asset list it was
handed, exactly when for some asset `before + in - out` is negative, `in` and `out` being
the amounts the two coin sets record for the asset's denomination. Otherwise it returns a
list of the same length and order in which every asset keeps its denomination and weight
and holds exactly `before + in - out`, so that every returned balance is non-negative. In
the oracle-backed swap it is applied to the input coins, to the single coin
`(tokenOutDenom, outAmountAfterSlippage.TruncateInt())` and to the accounted balances of
the pool assets. -/
theorem NewPoolAssetsAfterSwap_spec (p : Pool) (inCoins outCoins : Coins)
    (poolAssets : List PoolAsset) :
    ((∃ a ∈ poolAssets, a.Token.Amount + Coins.AmountOf inCoins a.Token.Denom
        - Coins.AmountOf outCoins a.Token.Denom < 0) →
      p.NewPoolAssetsAfterSwap inCoins outCoins poolAssets
        = .ret (poolAssets, some .negativePoolAmount)) ∧
    ((∀ a ∈ poolAssets, 0 ≤ a.Token.Amount + Coins.AmountOf inCoins a.Token.Denom
        - Coins.AmountOf outCoins a.Token.Denom) →
      p.NewPoolAssetsAfterSwap inCoins outCoins poolAssets
        = .ret (poolAssets.map fun a =>
            ⟨⟨a.Token.Denom, a.Token.Amount + Coins.AmountOf inCoins a.Token.Denom
              - Coins.AmountOf outCoins a.Token.Denom⟩, a.Weight⟩, none)) ∧
    (∀ r err, p.NewPoolAssetsAfterSwap inCoins outCoins poolAssets = .ret (r, err) →
      ((∃ e, err = some e) ↔
        ∃ a ∈ poolAssets, a.Token.Amount + Coins.AmountOf inCoins a.Token.Denom
          - Coins.AmountOf outCoins a.Token.Denom < 0) ∧
      (err = none → r.length = poolAssets.length ∧ ∀ a ∈ r, 0 ≤ a.Token.Amount)) ∧
    (∀ env snapshot tokensIn tokenOutDenom params s,
      Pool.SwapOutAmtGivenIn.oracleSteps env p snapshot tokensIn tokenOutDenom params
        = .ret (.ok s) →
      p.NewPoolAssetsAfterSwap tokensIn
          [⟨tokenOutDenom, s.outAmountAfterSlippage.TruncateInt⟩]
          (p.GetAccountedBalance env p.PoolAssets)
        = .ret (s.newAssetPools, none)) := by
  have hfail := NewPoolAssetsAfterSwap.loop_fail inCoins outCoins poolAssets poolAssets []
  have hok := NewPoolAssetsAfterSwap.loop_ok inCoins outCoins poolAssets poolAssets []
  simp only [List.nil_append] at hok
  refine ⟨hfail, hok, ?_, ?_⟩
  · intro r err hrun
    by_cases hneg : ∃ a ∈ poolAssets, a.Token.Amount + Coins.AmountOf inCoins a.Token.Denom
        - Coins.AmountOf outCoins a.Token.Denom < 0
    · have h := hfail hneg
      unfold Pool.NewPoolAssetsAfterSwap at hrun
      rw [h] at hrun
      simp only [Outcome.ret.injEq, Prod.mk.injEq] at hrun
      obtain ⟨rfl, rfl⟩ := hrun
      exact ⟨⟨fun _ => hneg, fun _ => ⟨_, rfl⟩⟩, fun h => (by cases h)⟩
    · have hall : ∀ a ∈ poolAssets, 0 ≤ a.Token.Amount
          + Coins.AmountOf inCoins a.Token.Denom - Coins.AmountOf outCoins a.Token.Denom := by
        intro a ha
        by_contra hlt
        exact hneg ⟨a, ha, by omega⟩
      have h := hok hall
      unfold Pool.NewPoolAssetsAfterSwap at hrun
      rw [h] at hrun
      simp only [Outcome.ret.injEq, Prod.mk.injEq] at hrun
      obtain ⟨rfl, rfl⟩ := hrun
      refine ⟨⟨fun h => (by obtain ⟨e, he⟩ := h; cases he), fun h => absurd h hneg⟩,
        fun _ => ⟨by simp, ?_⟩⟩
      intro a ha
      simp only [List.mem_map] at ha
      obtain ⟨b, hb, rfl⟩ := ha
      exact hall b hb
  · intro env snapshot tokensIn tokenOutDenom params s hs
    have hrun := (oracleSteps_ok hs).newAssets
    rw [(oracleSteps_ok hs).accounted] at hrun
    exact hrun

/-- C17, at concrete calls: 100 `uatom` in and 99 `uusdc` out on balances of 1000 each gives
1100 and 901; 1001 `uusdc` out is refused and the list comes back as it was. -/
theorem NewPoolAssetsAfterSwap_spec_witness :
    (samplePool true).NewPoolAssetsAfterSwap [⟨"uatom", 100⟩] [⟨"uusdc", 99⟩]
        (samplePool true).PoolAssets
      = .ret ([⟨⟨"uatom", 1100⟩, 1⟩, ⟨⟨"uusdc", 901⟩, 1⟩], none) ∧
    (samplePool true).NewPoolAssetsAfterSwap [⟨"uatom", 100⟩] [⟨"uusdc", 1001⟩]
        (samplePool true).PoolAssets
      = .ret ((samplePool true).PoolAssets, some .negativePoolAmount) :=
  ⟨by decide,
    (NewPoolAssetsAfterSwap_spec (samplePool true) [⟨"uatom", 100⟩] [⟨"uusdc", 1001⟩]
      (samplePool true).PoolAssets).1 (by decide)⟩

/-! ## The resized input -/

/-- When rounding lands exactly half a unit away, the result is even. -/
theorem chopPrecisionAndRound_tie (d : Int)
    (h : 2 * (chopPrecisionAndRound d * precisionReuse - d) = precisionReuse ∨
      2 * (d - chopPrecisionAndRound d * precisionReuse) = precisionReuse) :
    chopPrecisionAndRound d % 2 = 0 := by
  unfold chopPrecisionAndRound at h ⊢
  unfold chopPrecisionAndRoundAbs precisionReuse fivePrecision at h ⊢
  simp only at h ⊢
  split_ifs at h ⊢ <;> omega

/-- C18 (amended). In the oracle-backed swap the resized input handed to the slippage
model is `RoundInt` of the 18-digit quotient of the input amount by the external-liquidity
ratio: the integer nearest to the quotient, the even one of the two when the quotient lies
half-way (banker's rounding), not the quotient rounded down. Input 3 with ratio 2 resizes
to 2. -/
theorem SwapOutAmtGivenIn_resized_input (env : Env) (p snapshot : Pool) (tokensIn : Coins)
    (tokenOutDenom : String) (params : Params) (s : OracleSteps)
    (hSteps : Pool.SwapOutAmtGivenIn.oracleSteps env p snapshot tokensIn tokenOutDenom params
      = .ret (.ok s)) :
    ∃ q, (LegacyNewDecFromInt s.tokenIn.Amount).Quo s.externalLiquidityRatio = .ret q ∧
      s.resizedAmount = q.RoundInt ∧
      2 * |s.resizedAmount * precisionReuse - q.i| ≤ precisionReuse ∧
      (2 * |s.resizedAmount * precisionReuse - q.i| = precisionReuse →
        s.resizedAmount % 2 = 0) ∧
      p.CalcGivenInSlippage env snapshot [⟨s.tokenIn.Denom, s.resizedAmount⟩] tokenOutDenom
        = .ret (s.modelSlippage, none) ∧
      (s.tokenIn.Amount = 3 → s.externalLiquidityRatio = LegacyNewDecFromInt 2 →
        s.resizedAmount = 2) := by
  have hs := oracleSteps_ok hSteps
  obtain ⟨q, hq, hr⟩ := hs.resized
  refine ⟨q, hq, hr, ?_, ?_, hs.model, ?_⟩
  · rw [hr]
    have hb := chopPrecisionAndRound_bounds q.i
    show 2 * |chopPrecisionAndRound q.i * precisionReuse - q.i| ≤ precisionReuse
    rcases abs_cases (chopPrecisionAndRound q.i * precisionReuse - q.i) with ⟨he, _⟩ | ⟨he, _⟩
    · rw [he]; omega
    · rw [he]; omega
  · rw [hr]
    intro htie
    apply chopPrecisionAndRound_tie q.i
    show 2 * (chopPrecisionAndRound q.i * precisionReuse - q.i) = precisionReuse ∨
      2 * (q.i - chopPrecisionAndRound q.i * precisionReuse) = precisionReuse
    have htie1 : 2 * |chopPrecisionAndRound q.i * precisionReuse - q.i| = precisionReuse := htie
    rcases abs_cases (chopPrecisionAndRound q.i * precisionReuse - q.i) with ⟨he, _⟩ | ⟨he, _⟩
    · rw [he] at htie1
      exact Or.inl htie1
    · rw [he] at htie1
      right
      omega
  · intro h3 h2
    rw [h3, h2] at hq
    have hval : (LegacyNewDecFromInt 3).Quo (LegacyNewDecFromInt 2)
        = .ret ⟨1500000000000000000⟩ := by decide
    rw [hval] at hq
    simp only [Outcome.ret.injEq] at hq
    rw [hr, ← hq]
    decide

/-- C18, as stated, fails: with input 3 `uatom` and ratio 2 on the oracle-backed sample
pool the quotient is 1.5, which truncates to 1, and the resized input is 2. -/
theorem SwapOutAmtGivenIn_resized_input_rounds_up :
    (LegacyNewDecFromInt 3).Quo (LegacyNewDecFromInt 2) = .ret ⟨1500000000000000000⟩ ∧
    (⟨1500000000000000000⟩ : LegacyDec).TruncateInt = 1 ∧
    Pool.SwapOutAmtGivenIn.oracleSteps (sampleEnv LegacyOneDec (LegacyNewDecFromInt 2) 2 ⟨0⟩ true)
        (samplePool true) (samplePool true) [⟨"uatom", 3⟩] "uusdc" ⟨⟨0⟩⟩
      = .ret (.ok
        { tokenIn := ⟨"uatom", 3⟩
          accountedAssets := [⟨⟨"uatom", 1000⟩, 1⟩, ⟨⟨"uusdc", 1000⟩, 1⟩]
          oracleOutAmount := LegacyNewDecFromInt 3
          externalLiquidityRatio := LegacyNewDecFromInt 2
          resizedAmount := 2
          modelSlippage := LegacyZeroDec
          outAmountAfterSlippage := LegacyNewDecFromInt 3
          scaledSlippageAmount := LegacyZeroDec
          computedSlippage := LegacyZeroDec
          slippage := LegacyZeroDec
          slippageAmount := LegacyZeroDec
          newAssetPools := [⟨⟨"uatom", 1003⟩, 1⟩, ⟨⟨"uusdc", 997⟩, 1⟩] }) :=
  ⟨by decide, by decide, rfl⟩

/-- C18 (amended), at a concrete call: input 3 with ratio 2 resizes to 2. -/
theorem SwapOutAmtGivenIn_resized_input_witness :
    ∃ q, (LegacyNewDecFromInt 3).Quo (LegacyNewDecFromInt 2) = .ret q ∧
      (2 : Int) = q.RoundInt ∧ 2 * |(2 : Int) * precisionReuse - q.i| ≤ precisionReuse := by
  obtain ⟨q, hq, hr, hb, _⟩ :=
    SwapOutAmtGivenIn_resized_input (sampleEnv LegacyOneDec (LegacyNewDecFromInt 2) 2 ⟨0⟩ true)
      (samplePool true) (samplePool true) [⟨"uatom", 3⟩] "uusdc" ⟨⟨0⟩⟩
      { tokenIn := ⟨"uatom", 3⟩
        accountedAssets := [⟨⟨"uatom", 1000⟩, 1⟩, ⟨⟨"uusdc", 1000⟩, 1⟩]
        oracleOutAmount := LegacyNewDecFromInt 3
        externalLiquidityRatio := LegacyNewDecFromInt 2
        resizedAmount := 2
        modelSlippage := LegacyZeroDec
        outAmountAfterSlippage := LegacyNewDecFromInt 3
        scaledSlippageAmount := LegacyZeroDec
        computedSlippage := LegacyZeroDec
        slippage := LegacyZeroDec
        slippageAmount := LegacyZeroDec
        newAssetPools := [⟨⟨"uatom", 1003⟩, 1⟩, ⟨⟨"uusdc", 997⟩, 1⟩] }
      rfl
  exact ⟨q, hq, hr, hb⟩

/-! ## The payout against the oracle value -/

theorem CalcGivenInSlippage_nonneg {env : Env} {p snapshot : Pool} {tokensIn : Coins}
    {tokenOutDenom : String} {r : LegacyDec}
    (h : p.CalcGivenInSlippage env snapshot tokensIn tokenOutDenom = .ret (r, none)) :
    0 ≤ r.i := by
  unfold Pool.CalcGivenInSlippage at h
  rw [Outcome.bind_eq_ret] at h
  obtain ⟨⟨coin, sl, e⟩, _, h⟩ := h
  cases e with
  | some err => simp at h
  | none =>
    simp only [Outcome.bind_eq_ret] at h
    obtain ⟨⟨tokenIn, ain, aout, e⟩, _, h⟩ := h
    cases e with
    | some err => simp at h
    | none =>
      simp only at h
      split at h
      · simp at h
      · split at h
        · simp at h
        · simp only [Outcome.bind_eq_ret] at h
          obtain ⟨oracleAmount, _, h⟩ := h
          split at h
          · simp only [Outcome.ret.injEq, Prod.mk.injEq, and_true] at h
            subst h
            decide
          · rename_i hneg
            simp only [Outcome.ret.injEq, Prod.mk.injEq, and_true] at h
            subst h
            simpa [LegacyDec.IsNegative] using hneg

/-- C19. In an oracle-backed call of `SwapOutAmtGivenIn` that returns without error, with a
non-negative input amount, non-negative prices and a non-negative external-liquidity
ratio: when the weight-breaking fee lies in `[0, 1]` and `swapFee + takerFees` (with the
effective swap fee) lies in `[0, 1]`, the amount paid out, as a decimal, does not exceed
the returned oracle amount. -/
theorem SwapOutAmtGivenIn_output_le_oracle (env : Env) (p snapshot : Pool) (tokensIn : Coins)
    (tokenOutDenom : String) (swapFee factor : LegacyDec) (params : Params)
    (takerFees : LegacyDec) (s : OracleSteps) (bonus weightBreakingFee : LegacyDec)
    (isSwapFee : Bool) (p1 : Pool) (r : SwapReturn)
    (hOracle : p.PoolParams.UseOracle = true)
    (hSteps : Pool.SwapOutAmtGivenIn.oracleSteps env p snapshot tokensIn tokenOutDenom params
      = .ret (.ok s))
    (hFees : env.CalculateWeightFees p s.accountedAssets s.newAssetPools s.tokenIn.Denom params
      factor = .ret (bonus, weightBreakingFee, isSwapFee))
    (hAmount : 0 ≤ s.tokenIn.Amount)
    (hPriceIn : 0 ≤ (env.GetAssetPriceFromDenom s.tokenIn.Denom).i)
    (hPriceOut : 0 ≤ (env.GetAssetPriceFromDenom tokenOutDenom).i)
    (hRatio : 0 ≤ s.externalLiquidityRatio.i)
    (hWbf0 : 0 ≤ weightBreakingFee.i) (hWbf1 : weightBreakingFee.i ≤ LegacyOneDec.i)
    (hFee0 : 0 ≤ ((effectiveSwapFee isSwapFee swapFee).Add takerFees).i)
    (hFee1 : ((effectiveSwapFee isSwapFee swapFee).Add takerFees).i ≤ LegacyOneDec.i)
    (hRun : p.SwapOutAmtGivenIn env snapshot tokensIn tokenOutDenom swapFee factor params
      takerFees = .ret (p1, r))
    (hOk : r.err = none) :
    r.oracleOutAmount = s.oracleOutAmount ∧
    0 ≤ r.tokenOut.Amount ∧
    (LegacyNewDecFromInt r.tokenOut.Amount).i ≤ r.oracleOutAmount.i := by
  have hP : (0 : Int) < precisionReuse := by decide
  obtain ⟨_, hr⟩ := SwapOutAmtGivenIn_oracle_ret hOracle hRun
  rcases hr with ⟨e, rfl⟩ | ⟨s1, bonus1, wbf1, isSwapFee1, hst, hfees1, _, hnn, rfl⟩
  · simp [SwapReturn.failed] at hOk
  · rw [hSteps] at hst
    simp only [Outcome.ret.injEq, Except.ok.injEq] at hst
    subst hst
    rw [hFees] at hfees1
    simp only [Outcome.ret.injEq, Prod.mk.injEq] at hfees1
    obtain ⟨rfl, rfl, rfl⟩ := hfees1
    have hs := oracleSteps_ok hSteps
    refine ⟨rfl, hnn, ?_⟩
    show ((s.outAmountAfterSlippage.Mul (LegacyOneDec.Sub weightBreakingFee)).Mul
        (LegacyOneDec.Sub ((effectiveSwapFee isSwapFee swapFee).Add takerFees))).TruncateInt
      * precisionReuse ≤ s.oracleOutAmount.i
    -- the oracle amount is non-negative
    have hOracle0 : 0 ≤ s.oracleOutAmount.i := by
      obtain ⟨hne, hval⟩ := (LegacyDec.Quo_eq_ret _ _ _).1 hs.oracle
      rw [hval]
      apply chopPrecisionAndRound_nonneg
      apply Int.tdiv_nonneg _ hPriceOut
      exact Int.mul_nonneg
        (LegacyDec.Mul_nonneg _ _ (Int.mul_nonneg hAmount (Int.le_of_lt hP)) hPriceIn)
        (Int.mul_nonneg (Int.le_of_lt hP) (Int.le_of_lt hP))
    -- the scaled slippage is non-negative
    have hScaled : 0 ≤ (s.modelSlippage.Mul s.externalLiquidityRatio).i :=
      LegacyDec.Mul_nonneg _ _ (CalcGivenInSlippage_nonneg hs.model) hRatio
    have hOut : s.outAmountAfterSlippage.i
        = s.oracleOutAmount.i - (s.modelSlippage.Mul s.externalLiquidityRatio).i := by
      rw [hs.outAfter]; rfl
    have hf1 : 0 ≤ (LegacyOneDec.Sub weightBreakingFee).i ∧
        (LegacyOneDec.Sub weightBreakingFee).i ≤ precisionReuse := by
      show 0 ≤ LegacyOneDec.i - weightBreakingFee.i ∧
        LegacyOneDec.i - weightBreakingFee.i ≤ precisionReuse
      have : LegacyOneDec.i = precisionReuse := rfl
      omega
    have hf2 : 0 ≤ (LegacyOneDec.Sub ((effectiveSwapFee isSwapFee swapFee).Add takerFees)).i ∧
        (LegacyOneDec.Sub ((effectiveSwapFee isSwapFee swapFee).Add takerFees)).i
          ≤ precisionReuse := by
      show 0 ≤ LegacyOneDec.i - ((effectiveSwapFee isSwapFee swapFee).Add takerFees).i ∧
        LegacyOneDec.i - ((effectiveSwapFee isSwapFee swapFee).Add takerFees).i
          ≤ precisionReuse
      have : LegacyOneDec.i = precisionReuse := rfl
      omega
    generalize LegacyOneDec.Sub weightBreakingFee = f1 at hf1 ⊢
    generalize LegacyOneDec.Sub ((effectiveSwapFee isSwapFee swapFee).Add takerFees) = f2
      at hf2 ⊢
    by_cases hsign : 0 ≤ s.outAmountAfterSlippage.i
    · have h1 := LegacyDec.Mul_le_self s.outAmountAfterSlippage f1 hsign hf1.2
      have h1' := LegacyDec.Mul_nonneg s.outAmountAfterSlippage f1 hsign hf1.1
      have h2 := LegacyDec.Mul_le_self (s.outAmountAfterSlippage.Mul f1) f2 h1' hf2.2
      have h2' := LegacyDec.Mul_nonneg (s.outAmountAfterSlippage.Mul f1) f2 h1' hf2.1
      have h3 := (LegacyDec.TruncateInt_le _ h2').2
      omega
    · have hlow : -precisionReuse < s.outAmountAfterSlippage.i := by
        by_contra hle
        have := LegacyDec.TruncateInt_neg s.outAmountAfterSlippage (by omega)
        have := hs.outNonneg
        omega
      have h1 := LegacyDec.Mul_nonpos s.outAmountAfterSlippage f1 (by omega) hf1.1 hf1.2
      have h2 := LegacyDec.Mul_nonpos (s.outAmountAfterSlippage.Mul f1) f2 h1.2 hf2.1 hf2.2
      rw [LegacyDec.TruncateInt_small _ (by omega) h2.2]
      omega

/-- C19, at a concrete call: 100 `uatom` at price parity, invariant output 99, breaking fee
0.1, swap fee 0.03 and taker fee 0.02 pay 84 `uusdc`, under the oracle amount 100. -/
theorem SwapOutAmtGivenIn_output_le_oracle_witness :
    (samplePool true).SwapOutAmtGivenIn
        (sampleEnv LegacyOneDec LegacyOneDec 99 ⟨100000000000000000⟩ true) (samplePool true)
        [⟨"uatom", 100⟩] "uusdc" ⟨30000000000000000⟩ LegacyOneDec ⟨⟨0⟩⟩ ⟨20000000000000000⟩
      = .ret (samplePool true,
          ⟨⟨"uusdc", 84⟩, ⟨10000000000000000⟩, LegacyNewDecFromInt 1, ⟨0⟩,
            LegacyNewDecFromInt 100, ⟨30000000000000000⟩, none⟩) ∧
    (LegacyNewDecFromInt 84).i ≤ (LegacyNewDecFromInt 100).i :=
  ⟨by decide,
    (SwapOutAmtGivenIn_output_le_oracle
      (sampleEnv LegacyOneDec LegacyOneDec 99 ⟨100000000000000000⟩ true) (samplePool true)
      (samplePool true) [⟨"uatom", 100⟩] "uusdc" ⟨30000000000000000⟩ LegacyOneDec ⟨⟨0⟩⟩
      ⟨20000000000000000⟩
      { tokenIn := ⟨"uatom", 100⟩
        accountedAssets := [⟨⟨"uatom", 1000⟩, 1⟩, ⟨⟨"uusdc", 1000⟩, 1⟩]
        oracleOutAmount := LegacyNewDecFromInt 100
        externalLiquidityRatio := LegacyOneDec
        resizedAmount := 100
        modelSlippage := LegacyNewDecFromInt 1
        outAmountAfterSlippage := LegacyNewDecFromInt 99
        scaledSlippageAmount := LegacyNewDecFromInt 1
        computedSlippage := ⟨10000000000000000⟩
        slippage := ⟨10000000000000000⟩
        slippageAmount := LegacyNewDecFromInt 1
        newAssetPools := [⟨⟨"uatom", 1100⟩, 1⟩, ⟨⟨"uusdc", 901⟩, 1⟩] }
      LegacyZeroDec ⟨100000000000000000⟩ true (samplePool true)
      ⟨⟨"uusdc", 84⟩, ⟨10000000000000000⟩, LegacyNewDecFromInt 1, ⟨0⟩,
        LegacyNewDecFromInt 100, ⟨30000000000000000⟩, none⟩
      (by decide) rfl (by decide) (by decide) (by decide) (by decide) (by decide) (by decide)
      (by decide) (by decide) (by decide) (by decide) (by decide)).2.2⟩

/-! ## The divisor of the slippage ratio -/

/-- C20. The call below swaps one `uatom`, priced at `10^-18`, for `uusdc`, priced at 10,
on the oracle-backed sample pool with ratio 1: the input amount is positive, both prices
and the ratio are nonzero, yet the oracle amount `1 * 10^-18 / 10` rounds to zero at 18
digits, and the quotient of the slippage amount by it panics with a division by zero. -/
theorem SwapOutAmtGivenIn_zero_oracle_amount :
    (pricedEnv ⟨1⟩ (LegacyNewDecFromInt 10) 0).GetAssetPriceFromDenom "uatom" = ⟨1⟩ ∧
    (pricedEnv ⟨1⟩ (LegacyNewDecFromInt 10) 0).GetAssetPriceFromDenom "uusdc"
      = LegacyNewDecFromInt 10 ∧
    (pricedEnv ⟨1⟩ (LegacyNewDecFromInt 10) 0).GetAssetExternalLiquidityRatio (samplePool true)
      "uusdc" = .ret (LegacyOneDec, none) ∧
    ((LegacyNewDecFromInt 1).Mul ⟨1⟩).Quo (LegacyNewDecFromInt 10) = .ret LegacyZeroDec ∧
    (samplePool true).CalcGivenInSlippage (pricedEnv ⟨1⟩ (LegacyNewDecFromInt 10) 0)
        (samplePool true) [⟨"uatom", 1⟩] "uusdc" = .ret (LegacyZeroDec, none) ∧
    (LegacyZeroDec.Mul LegacyOneDec).Quo LegacyZeroDec = .panic ∧
    (samplePool true).SwapOutAmtGivenIn (pricedEnv ⟨1⟩ (LegacyNewDecFromInt 10) 0)
        (samplePool true) [⟨"uatom", 1⟩] "uusdc" ⟨0⟩ LegacyOneDec ⟨⟨0⟩⟩ ⟨0⟩
      = .panic := by
  decide

end Elys
